import Mathlib

/-!
# Outline overlap removal (`fontforge/splineoverlap.h`) and the Qt drawing layer

The header `splineoverlap.h` declares the overlap-removal engine
(`SSsToMContours`, `CheckMonotonicClosed`, `MonotonicFindAt`,
`SplineSetRemoveOverlap`, `SSRemoveBacktracks`); the bodies of these functions
and the types of `splinefont.h` and `edgelist2.h` are not among the sources.
The definitions of the namespace `SplineOverlap` follow the design document
section by section.  Coordinates are exact rationals: every finite
floating-point value is one, and all quantities computed below are rational
expressions of the inputs, except the square root of the quadratic solver,
which is a field of the configuration.
-/

namespace SplineOverlap

/-! ## Data model (§3) -/

/-- Modelled from the spec: the Point of §3, "a pair of floating-point coordinates
(x, y). Value type, no identity." (`BasePoint` of splinefont.h is not among the
sources.) -/
structure BasePoint where
  x : ℚ
  y : ℚ
deriving DecidableEq

/-- Modelled from the spec: the axis selector (the `int which` argument of
`MonotonicFindAt`): the sweep axis of §2 is "commonly the vertical axis". -/
inductive Axis
  | x
  | y
deriving DecidableEq

/-- The coordinate of a point along an axis. -/
def BasePoint.coord (p : BasePoint) : Axis → ℚ
  | .x => p.x
  | .y => p.y

/-- The other axis ("a secondary axis", §4.4). -/
def Axis.other : Axis → Axis
  | .x => .y
  | .y => .x

/-- Modelled from the spec: the Segment of §3, "polymorphic over {Line, Cubic}. A Cubic
carries two endpoints and two control points; a Line carries two endpoints."  §9:
"a tagged-union (sum type) with pattern-matched evaluation". -/
inductive Segment
  | line (p0 p1 : BasePoint)
  | cubic (p0 c0 c1 p1 : BasePoint)
deriving DecidableEq

/-- Start point of a segment. -/
def Segment.first : Segment → BasePoint
  | .line p0 _ => p0
  | .cubic p0 _ _ _ => p0

/-- End point of a segment. -/
def Segment.last : Segment → BasePoint
  | .line _ p1 => p1
  | .cubic _ _ _ p1 => p1

/-- Modelled from the spec: a Contour of §3 (one `SplineSet` of splinefont.h, not among
the sources): "an ordered, cyclic sequence of Segments", with the selection mark that
the scope flag of §6 looks at. -/
structure SplineSet where
  segs : List Segment
  selected : Bool
deriving DecidableEq

/-- The end point of each segment is the start point of the following one, and the
end point of the final segment is `p`. -/
def closedFrom (p : BasePoint) : List Segment → Bool
  | [] => true
  | [s] => decide (s.last = p)
  | a :: b :: rest => decide (a.last = b.first) && closedFrom p (b :: rest)

/-- Modelled from the spec: the invariant of a Contour (§3): "end point of segment i equals
the start point of segment (i+1 mod n)". -/
def SplineSet.isClosed (c : SplineSet) : Bool :=
  match c.segs with
  | [] => true
  | s :: rest => closedFrom s.first (s :: rest)

/-- Modelled from the spec: the fill-rule selector of §6, "nonzero-winding vs even-odd". -/
inductive FillRule
  | nonzero
  | evenodd
deriving DecidableEq

/-- Modelled from the spec: `enum overlap_type` (edgelist2.h, not among the sources).  The
header: "overlap_type controls whether we look at selected splinesets or all
splinesets"; §6: "A fill-rule selector ... and a selected contours only vs all
contours scope flag". -/
structure overlap_type where
  rule : FillRule
  selectedOnly : Bool
deriving DecidableEq

/-- Modelled from the spec: the explicit configuration of §9 ("Global epsilon constants
(position tolerance, angle tolerance) should be passed as explicit configuration to
the pipeline entry point"), the "small epsilon" of the discriminant clamp (§4.1), the
"hard iteration cap" and "small deterministic offset" of the retry loop (§4.4, §9), a
depth bound for the recursive bisection of §4.3, and the floating-point square root
of the quadratic solver. -/
structure Config where
  epsDisc : ℚ
  epsPos : ℚ
  epsAngle : ℚ
  maxRetry : Nat
  offset : ℚ
  maxDepth : Nat
  sqrt : ℚ → ℚ

/-- Is the contour looked at under the scope flag? -/
def inScope (ot : overlap_type) (c : SplineSet) : Bool :=
  !ot.selectedOnly || c.selected

/-! ## Geometry primitives (§4.1) -/

/-- Linear interpolation between two values. -/
def lerp1 (t a b : ℚ) : ℚ := (1 - t) * a + t * b

/-- Bernstein-basis value of a cubic with coefficients `a b c d` at `t`. -/
def bern (t a b c d : ℚ) : ℚ :=
  (1 - t) * (1 - t) * (1 - t) * a + 3 * ((1 - t) * (1 - t)) * t * b
    + 3 * (1 - t) * (t * t) * c + t * t * t * d

/-- Modelled from the spec: position at parameter `t` (§4.1): "cubic Bezier: standard
Bernstein-basis evaluation; line: linear interpolation". -/
def Segment.eval : Segment → ℚ → BasePoint
  | .line p0 p1, t => ⟨lerp1 t p0.x p1.x, lerp1 t p0.y p1.y⟩
  | .cubic p0 c0 c1 p1, t => ⟨bern t p0.x c0.x c1.x p1.x, bern t p0.y c0.y c1.y p1.y⟩

/-- Derivative of the Bernstein form at `t`. -/
def bernDeriv (t a b c d : ℚ) : ℚ :=
  3 * ((1 - t) * (1 - t)) * (b - a) + 6 * (1 - t) * t * (c - b) + 3 * (t * t) * (d - c)

/-- Modelled from the spec: the axis component of the tangent direction at `t` (§4.1). -/
def Segment.deriv (w : Axis) : Segment → ℚ → ℚ
  | .line p0 p1, _ => p1.coord w - p0.coord w
  | .cubic p0 c0 c1 p1, t => bernDeriv t (p0.coord w) (c0.coord w) (c1.coord w) (p1.coord w)

/-- Coefficients `(A, B, C)` of the derivative's axis component `A t² + B t + C`
("derivative of a cubic Bezier", a quadratic). -/
def Segment.derivCoeffs (w : Axis) : Segment → ℚ × ℚ × ℚ
  | .line p0 p1 => (0, 0, p1.coord w - p0.coord w)
  | .cubic p0 c0 c1 p1 =>
      (3 * (p1.coord w - 3 * c1.coord w + 3 * c0.coord w - p0.coord w),
       6 * (c1.coord w - 2 * c0.coord w + p0.coord w),
       3 * (c0.coord w - p0.coord w))

/-- Modelled from the spec: the quadratic solver of §4.1: real roots of `A t² + B t + C`, with the
"discriminant clamped against a small epsilon to treat near-zero discriminants as
tangency, not two close roots". -/
def quadRoots (cfg : Config) (a b c : ℚ) : List ℚ :=
  if a = 0 then
    if b = 0 then [] else [-c / b]
  else
    let disc := b * b - 4 * a * c
    if |disc| ≤ cfg.epsDisc then [-b / (2 * a)]
    else if disc < 0 then []
    else [(-b - cfg.sqrt disc) / (2 * a), (-b + cfg.sqrt disc) / (2 * a)]

/-- Modelled from the spec: the internal extrema of a segment along an axis (§4.2): "roots of the
axis-derivative in the open parameter interval", in increasing order, each once. -/
def Segment.extrema (cfg : Config) (w : Axis) (s : Segment) : List ℚ :=
  let k := s.derivCoeffs w
  (((quadRoots cfg k.1 k.2.1 k.2.2).filter (fun t => decide (0 < t ∧ t < 1))).dedup).insertionSort
    (fun a b => a ≤ b)

/-! ## Monotonic decomposer (§4.2) -/

/-- Modelled from the spec: the MonotonicPiece of §3 (`struct monotonic` of edgelist2.h, not
among the sources): "a maximal sub-range of a Segment (parametrized by t ∈ [t0, t1])
that is monotonic in the sweep coordinate; carries a back-reference to its originating
Contour/Segment ... and is linked to its neighbor pieces within the same contour";
§9: "an arena of pieces plus integer next/prev indices". -/
structure Monotonic where
  contour : Nat
  segIdx : Nat
  seg : Segment
  t0 : ℚ
  t1 : ℚ
  next : Nat
  prev : Nat
deriving DecidableEq

/-- Start point of a piece. -/
def Monotonic.startPt (m : Monotonic) : BasePoint := m.seg.eval m.t0

/-- End point of a piece. -/
def Monotonic.endPt (m : Monotonic) : BasePoint := m.seg.eval m.t1

/-- The parameter intervals cut out of `[lo, hi]` by the cut points `cuts`. -/
def intervals (hi : ℚ) (lo : ℚ) : List ℚ → List (ℚ × ℚ)
  | [] => [(lo, hi)]
  | r :: rs => (lo, r) :: intervals hi r rs

/-- Modelled from the spec: a Segment "with zero length or with start==end (duplicate
point)" (§4.2): all the points that define it coincide, so that the segment is a single
point.  A cubic that leaves its start point and comes back to it is not one. -/
def Segment.isPoint : Segment → Bool
  | .line p0 p1 => decide (p0 = p1)
  | .cubic p0 c0 c1 p1 => decide (p0 = c0 ∧ c0 = c1 ∧ c1 = p1)

/-- Modelled from the spec: the pieces of one Segment (§4.2): "find its internal extrema ... and
cut the segment there"; "a Segment with zero length or with start==end (duplicate
point) is dropped from the contour and its neighbors are spliced together". -/
def segPieces (cfg : Config) (w : Axis) (s : Segment) : List (ℚ × ℚ) :=
  if s.isPoint = true then [] else intervals 1 0 (s.extrema cfg w)

/-- The pieces of the segments of one contour, in contour order, each with the index
of its segment. -/
def contourPieces (cfg : Config) (w : Axis) : Nat → List Segment → List (Nat × Segment × ℚ × ℚ)
  | _, [] => []
  | i, s :: rest =>
      (segPieces cfg w s).map (fun iv => (i, s, iv.1, iv.2)) ++ contourPieces cfg w (i + 1) rest

/-- Links `k` pieces placed from arena index `base` on into a ring: piece `j` of the
ring has `next = base + (j + 1) mod k` and `prev = base + (j + k - 1) mod k`. -/
def ringFrom (ci base k : Nat) : Nat → List (Nat × Segment × ℚ × ℚ) → List Monotonic
  | _, [] => []
  | j, p :: ps =>
      { contour := ci, segIdx := p.1, seg := p.2.1, t0 := p.2.2.1, t1 := p.2.2.2,
        next := base + (j + 1) % k, prev := base + (j + k - 1) % k }
        :: ringFrom ci base k (j + 1) ps

/-- The ring of one contour. -/
def ring (ci base : Nat) (ps : List (Nat × Segment × ℚ × ℚ)) : List Monotonic :=
  ringFrom ci base ps.length 0 ps

/-- Places the rings of the contours one after the other in the arena. -/
def assemble : Nat → Nat → List (List (Nat × Segment × ℚ × ℚ)) → List Monotonic
  | _, _, [] => []
  | ci, base, ps :: rest => ring ci base ps ++ assemble (ci + 1) (base + ps.length) rest

/-- Modelled from the spec: the decomposer of §4.2 (`SSsToMContours`, declared in
splineoverlap.h): "for each Contour, a cyclic linked sequence of MonotonicPieces covering
the contour exactly once, preserving original direction", "plus a flat collection across
all contours" (§3).  Only the contours in scope are looked at; a contour all of
whose segments are dropped contributes no piece. -/
def SSsToMContoursOn (cfg : Config) (w : Axis) (spl : List SplineSet) (ot : overlap_type) :
    List Monotonic :=
  assemble 0 0 (((spl.filter (inScope ot)).map (fun c => contourPieces cfg w 0 c.segs)))

/-- The decomposer along the vertical sweep axis. -/
def SSsToMContours (cfg : Config) (spl : List SplineSet) (ot : overlap_type) : List Monotonic :=
  SSsToMContoursOn cfg .y spl ot

/-- Modelled from the spec: the degenerate-input signal of §4.2: the contours in scope that are
emptied by the dropping of their degenerate segments ("it is dropped entirely and
reported via a degenerate-input signal"). -/
def degenerateContours (cfg : Config) (spl : List SplineSet) (ot : overlap_type) :
    List SplineSet :=
  (spl.filter (inScope ot)).filter (fun c => (contourPieces cfg .y 0 c.segs).isEmpty)

/-- The cross product `a × b` of two plane vectors. -/
def cross (ax ay bx by_ : ℚ) : ℚ := ax * by_ - ay * bx

/-- The contribution `½ ∫ (x dy − y dx)` of a segment to the signed area enclosed by a
closed path (for a cubic, the integral of the Bernstein form in closed form). -/
def Segment.areaTerm : Segment → ℚ
  | .line p0 p1 => cross p0.x p0.y p1.x p1.y / 2
  | .cubic p0 c0 c1 p1 =>
      (6 * cross p0.x p0.y c0.x c0.y + 3 * cross p0.x p0.y c1.x c1.y
        + cross p0.x p0.y p1.x p1.y + 3 * cross c0.x c0.y c1.x c1.y
        + 3 * cross c0.x c0.y p1.x p1.y + 6 * cross c1.x c1.y p1.x p1.y) / 20

/-- Signed area enclosed by a closed sequence of segments (positive when
counter-clockwise). -/
def signedArea (l : List Segment) : ℚ := (l.map Segment.areaTerm).sum

/-- Modelled from the spec: the retrace test of §4.5 on an adjacent edge pair: "same two
endpoints, opposite direction, zero enclosed area". -/
def retraces (a b : Segment) : Bool :=
  decide (a.first = b.last) && decide (a.last = b.first)
    && decide (a.areaTerm + b.areaTerm = 0)

/-- Removes the first adjacent retracing pair met when scanning the list in order. -/
def dropSpur : List Segment → Option (List Segment)
  | a :: b :: rest =>
      if retraces a b then some rest else (dropSpur (b :: rest)).map (fun l => a :: l)
  | _ => none

/-- Removes the pair formed by the final and the first edge of the cycle when it
retraces. -/
def dropWrap : List Segment → Option (List Segment)
  | a :: b :: rest =>
      match (b :: rest).getLast? with
      | some z => if retraces z a then some ((b :: rest).dropLast) else none
      | none => none
  | _ => none

/-- One removal: an adjacent retracing pair of the cyclic sequence, if there is one. -/
def spurStep (l : List Segment) : Option (List Segment) :=
  match dropSpur l with
  | some r => some r
  | none => dropWrap l

/-- Removes spurs for at most `fuel` rounds. -/
def removeSpurs : Nat → List Segment → List Segment
  | 0, l => l
  | fuel + 1, l =>
      match spurStep l with
      | none => l
      | some r => removeSpurs fuel r

/-- Modelled from the spec: `SSRemoveBacktracks` (declared in splineoverlap.h), §4.5: "scan each
output contour for adjacent edge pairs that retrace each other (same two endpoints,
opposite direction, zero enclosed area) and remove such spurs iteratively until none
remain".  Every round removes two edges, so as many rounds as there are edges
suffice. -/
def SSRemoveBacktracks (ss : SplineSet) : SplineSet :=
  { ss with segs := removeSpurs ss.segs.length ss.segs }

/-- Some cyclically adjacent pair of edges of the contour retraces: positions `i` and
`i + 1 mod n` of a sequence of `n ≥ 2` edges. -/
def HasSpur (l : List Segment) : Prop :=
  2 ≤ l.length ∧ ∃ i a b, l[i]? = some a ∧ l[(i + 1) % l.length]? = some b ∧ retraces a b = true

/-! ## Geometry primitives, continued: sub-segments and bounding boxes (§4.1) -/

/-- Linear interpolation between two points. -/
def lerp (t : ℚ) (p q : BasePoint) : BasePoint := ⟨lerp1 t p.x q.x, lerp1 t p.y q.y⟩

/-- The polar form of a cubic (de Casteljau steps with the parameters `u`, `v`, `w`). -/
def blossom (p0 c0 c1 p1 : BasePoint) (u v w : ℚ) : BasePoint :=
  lerp w (lerp v (lerp u p0 c0) (lerp u c0 c1)) (lerp v (lerp u c0 c1) (lerp u c1 p1))

/-- The sub-range `[u, v]` of a segment as a segment of its own. -/
def Segment.sub : Segment → ℚ → ℚ → Segment
  | .line p0 p1, u, v => .line (lerp u p0 p1) (lerp v p0 p1)
  | .cubic p0 c0 c1 p1, u, v =>
      .cubic (blossom p0 c0 c1 p1 u u u) (blossom p0 c0 c1 p1 u u v)
        (blossom p0 c0 c1 p1 u v v) (blossom p0 c0 c1 p1 v v v)

/-- An axis-aligned box: lower and upper corner. -/
structure BBox where
  lo : BasePoint
  hi : BasePoint

/-- Modelled from the spec: bounding box (§4.1): "tight for lines; axis-aligned
convex-hull-of-control-points bound for cubics". -/
def Segment.bbox : Segment → BBox
  | .line p0 p1 => ⟨⟨min p0.x p1.x, min p0.y p1.y⟩, ⟨max p0.x p1.x, max p0.y p1.y⟩⟩
  | .cubic p0 c0 c1 p1 =>
      ⟨⟨min (min p0.x c0.x) (min c1.x p1.x), min (min p0.y c0.y) (min c1.y p1.y)⟩,
       ⟨max (max p0.x c0.x) (max c1.x p1.x), max (max p0.y c0.y) (max c1.y p1.y)⟩⟩

/-- Do two boxes have a point in common? -/
def BBox.overlaps (a b : BBox) : Bool :=
  decide (a.lo.x ≤ b.hi.x) && decide (b.lo.x ≤ a.hi.x)
    && decide (a.lo.y ≤ b.hi.y) && decide (b.lo.y ≤ a.hi.y)

/-- The tangent vector of a segment at `t`. -/
def Segment.tangent (s : Segment) (t : ℚ) : BasePoint := ⟨s.deriv .x t, s.deriv .y t⟩

/-! ## Intersection finder (§4.3) -/

/-- Modelled from the spec: the IntersectionPoint of §3: "a Point plus, for each of the two
intersecting pieces, the parametric value t at which it occurs and a reference to that
piece. Multiplicities (tangential/overlapping intersections) are recorded explicitly". -/
structure IntersectionPoint where
  pt : BasePoint
  a : Nat
  ta : ℚ
  b : Nat
  tb : ℚ
  mult : Nat
  tangential : Bool

/-- Modelled from the spec: "line/line is closed-form" (§4.3).  The parameters of the common
points of the lines `p0 p1` and `q0 q1`; for parallel lines on one carrier, the ends of
either that lie on the other (contacts without crossing). -/
def lineLine (p0 p1 q0 q1 : BasePoint) : List (ℚ × ℚ) :=
  let dx := p1.x - p0.x
  let dy := p1.y - p0.y
  let ex := q1.x - q0.x
  let ey := q1.y - q0.y
  let den := cross dx dy ex ey
  if den = 0 then
    if cross (q0.x - p0.x) (q0.y - p0.y) dx dy = 0 ∧ dx * dx + dy * dy ≠ 0
        ∧ ex * ex + ey * ey ≠ 0 then
      let onP := fun (q : BasePoint) => ((q.x - p0.x) * dx + (q.y - p0.y) * dy) / (dx * dx + dy * dy)
      let onQ := fun (p : BasePoint) => ((p.x - q0.x) * ex + (p.y - q0.y) * ey) / (ex * ex + ey * ey)
      [(onP q0, 0), (onP q1, 1), (0, onQ p0), (1, onQ p1)]
    else []
  else
    [(cross (q0.x - p0.x) (q0.y - p0.y) ex ey / den,
      cross (q0.x - p0.x) (q0.y - p0.y) dx dy / den)]

/-- Modelled from the spec: "any pair involving a cubic uses iterative subdivision (recursive
bounding-box bisection, a.k.a. curve-clipping) until sub-intervals are smaller than a
position tolerance ε_pos, then reports the midpoint parameter as the intersection"
(§4.3); `fuel` bounds the depth. -/
def bisect (cfg : Config) (sa sb : Segment) : Nat → ℚ → ℚ → ℚ → ℚ → List (ℚ × ℚ)
  | 0, a0, a1, b0, b1 =>
      if ((sa.sub a0 a1).bbox).overlaps ((sb.sub b0 b1).bbox) then [((a0 + a1) / 2, (b0 + b1) / 2)]
      else []
  | fuel + 1, a0, a1, b0, b1 =>
      if ((sa.sub a0 a1).bbox).overlaps ((sb.sub b0 b1).bbox) then
        if a1 - a0 < cfg.epsPos ∧ b1 - b0 < cfg.epsPos then [((a0 + a1) / 2, (b0 + b1) / 2)]
        else
          let am := (a0 + a1) / 2
          let bm := (b0 + b1) / 2
          bisect cfg sa sb fuel a0 am b0 bm ++ bisect cfg sa sb fuel a0 am bm b1
            ++ bisect cfg sa sb fuel am a1 b0 bm ++ bisect cfg sa sb fuel am a1 bm b1
      else []

/-- The parameter pairs at which two pieces meet, each within the range of its piece. -/
def pieceHits (cfg : Config) (m n : Monotonic) : List (ℚ × ℚ) :=
  match m.seg, n.seg with
  | .line p0 p1, .line q0 q1 =>
      (lineLine p0 p1 q0 q1).filter
        (fun h => decide (m.t0 ≤ h.1 ∧ h.1 ≤ m.t1 ∧ n.t0 ≤ h.2 ∧ h.2 ≤ n.t1))
  | _, _ => bisect cfg m.seg n.seg cfg.maxDepth m.t0 m.t1 n.t0 n.t1

/-- Modelled from the spec: "merging results that fall within ε_pos of each other into a single
IntersectionPoint with multiplicity" (§4.3). -/
def mergeHit (cfg : Config) (h : IntersectionPoint) : List IntersectionPoint → List IntersectionPoint
  | [] => [h]
  | g :: rest =>
      if |g.pt.x - h.pt.x| ≤ cfg.epsPos ∧ |g.pt.y - h.pt.y| ≤ cfg.epsPos then
        { g with mult := g.mult + h.mult, tangential := g.tangential || h.tangential } :: rest
      else g :: mergeHit cfg h rest

/-- Modelled from the spec: the intersections of one pair of pieces (arena indices `i`, `j`).
"Self-pairs within the same original Segment are excluded"; a piece and the neighbour it
shares an endpoint with meet only away from that endpoint ("excluding the
shared-endpoint parameter exactly"); a contact is tangential when the "cross product
of tangents [is] within ε_angle of zero" (§4.3). -/
def pairIntersections (cfg : Config) (i : Nat) (m : Monotonic) (j : Nat) (n : Monotonic) :
    List IntersectionPoint :=
  if m.contour = n.contour ∧ m.segIdx = n.segIdx then []
  else if !((m.seg.sub m.t0 m.t1).bbox).overlaps ((n.seg.sub n.t0 n.t1).bbox) then []
  else
    let hits := (pieceHits cfg m n).filter (fun h =>
      !(decide (m.next = j ∧ h.1 = m.t1 ∧ h.2 = n.t0))
        && !(decide (n.next = i ∧ h.2 = n.t1 ∧ h.1 = m.t0)))
    (hits.map (fun h =>
      let ta := m.seg.tangent h.1
      let tb := n.seg.tangent h.2
      ({ pt := m.seg.eval h.1, a := i, ta := h.1, b := j, tb := h.2, mult := 1,
         tangential := decide (|cross ta.x ta.y tb.x tb.y| ≤ cfg.epsAngle) } :
        IntersectionPoint))).foldl
      (fun acc h => mergeHit cfg h acc) []

/-- The intersections of the piece `m` (arena index `i`) with the pieces that follow it. -/
def intersectionsFrom (cfg : Config) (i : Nat) (m : Monotonic) :
    Nat → List Monotonic → List IntersectionPoint
  | _, [] => []
  | j, n :: rest => pairIntersections cfg i m j n ++ intersectionsFrom cfg i m (j + 1) rest

/-- All pairs `i < j` of the arena, from index `i` on. -/
def intersectionsAll (cfg : Config) : Nat → List Monotonic → List IntersectionPoint
  | _, [] => []
  | i, m :: rest => intersectionsFrom cfg i m (i + 1) rest ++ intersectionsAll cfg (i + 1) rest

/-- Modelled from the spec: `find_intersections(pieces) -> sequence of IntersectionPoint`
(§4.3): bounding-box pruning "followed by exact pairwise intersection for every
surviving candidate pair". -/
def find_intersections (cfg : Config) (pieces : List Monotonic) : List IntersectionPoint :=
  intersectionsAll cfg 0 pieces

/-! ## Contour splitter and winding assigner (§4.4) -/

/-- The parameters strictly inside piece `i` at which an intersection touches it, in
increasing order, each once. -/
def splitParams (ips : List IntersectionPoint) (i : Nat) (m : Monotonic) : List ℚ :=
  ((((ips.filter (fun p => decide (p.a = i))).map (fun p => p.ta)
      ++ (ips.filter (fun p => decide (p.b = i))).map (fun p => p.tb)).filter
        (fun t => decide (m.t0 < t ∧ t < m.t1))).dedup).insertionSort (fun a b => a ≤ b)

/-- The sub-pieces of the arena from index `i` on, in arena order, not yet linked. -/
def splitFrom (ips : List IntersectionPoint) : Nat → List Monotonic → List Monotonic
  | _, [] => []
  | i, m :: rest =>
      (intervals m.t1 m.t0 (splitParams ips i m)).map
          (fun iv => { m with t0 := iv.1, t1 := iv.2, next := 0, prev := 0 })
        ++ splitFrom ips (i + 1) rest

/-- Groups consecutive pieces of the same contour. -/
def groupRuns : List Monotonic → List (List Monotonic)
  | [] => []
  | p :: rest =>
      match groupRuns rest with
      | [] => [[p]]
      | g :: gs =>
          match g with
          | [] => [p] :: gs
          | q :: _ => if p.contour = q.contour then (p :: g) :: gs else [p] :: g :: gs

/-- Links the sub-pieces of each contour into a ring again. -/
def relink : Nat → List (List Monotonic) → List Monotonic
  | _, [] => []
  | base, g :: rest =>
      (match g with
        | [] => []
        | p :: _ => ring p.contour base (g.map (fun q => (q.segIdx, q.seg, q.t0, q.t1))))
        ++ relink (base + g.length) rest

/-- Modelled from the spec: the splitter of §4.4: "insert every IntersectionPoint as a new vertex
into the MonotonicPiece cyclic list of each contour it touches, splitting that piece
into two pieces at the corresponding t". -/
def splitPieces (ips : List IntersectionPoint) (pieces : List Monotonic) : List Monotonic :=
  relink 0 (groupRuns (splitFrom ips 0 pieces))

/-- Modelled from the spec: `MonotonicFindAt` (declared in splineoverlap.h): the pieces of `ms`
that the line `which = test` meets, i.e. whose range along the axis `which` contains
`test`. -/
def MonotonicFindAt (ms : List Monotonic) (which : Axis) (test : ℚ) : List Monotonic :=
  ms.filter (fun m =>
    decide (min (m.startPt.coord which) (m.endPt.coord which) ≤ test
      ∧ test ≤ max (m.startPt.coord which) (m.endPt.coord which)))

/-- The parameter in `[lo, hi]` at which the coordinate `w` of the segment, monotonic
there, takes the value `test`: closed form for a line, bisection down to the position
tolerance for a cubic. -/
def solveAt (cfg : Config) (w : Axis) (s : Segment) (test : ℚ) : Nat → ℚ → ℚ → ℚ
  | 0, lo, hi => (lo + hi) / 2
  | fuel + 1, lo, hi =>
      match s with
      | .line p0 p1 => (test - p0.coord w) / (p1.coord w - p0.coord w)
      | .cubic _ _ _ _ =>
          let mid := (lo + hi) / 2
          if hi - lo ≤ cfg.epsPos then mid
          else if (min ((s.eval lo).coord w) ((s.eval mid).coord w) ≤ test
              ∧ test ≤ max ((s.eval lo).coord w) ((s.eval mid).coord w)) then
            solveAt cfg w s test fuel lo mid
          else solveAt cfg w s test fuel mid hi

/-- What a test ray does at a piece. -/
inductive Hit
  | miss
  | crossing (sign : Int)
  | degenerate
deriving DecidableEq

/-- Modelled from the spec: one piece against the test ray of §4.4.  The ray starts at `sample`,
runs along the line `w = sample.w` toward −∞ of the other coordinate.  A crossing counts
"+1 or −1 ... according to each crossed edge's local vertical direction": +1 for an edge
running toward +y, −1 toward −y (for the ray of the secondary axis, turned by a quarter:
+1 for an edge running toward −x, −1 toward +x).  The ray is degenerate when it passes
"exactly through any vertex" of the piece or has a "collinear overlap" with it. -/
def rayHit (cfg : Config) (w : Axis) (sample : BasePoint) (m : Monotonic) : Hit :=
  let wa := m.startPt.coord w
  let wb := m.endPt.coord w
  let oa := m.startPt.coord w.other
  let ob := m.endPt.coord w.other
  let test := sample.coord w
  let so := sample.coord w.other
  if wa = wb then
    if test = wa ∧ min oa ob ≤ so then .degenerate else .miss
  else if test = wa then
    if oa ≤ so then .degenerate else .miss
  else if test = wb then
    if ob ≤ so then .degenerate else .miss
  else if min wa wb < test ∧ test < max wa wb then
    let q := (m.seg.eval (solveAt cfg w m.seg test (cfg.maxDepth + 1) m.t0 m.t1)).coord w.other
    if q < so then
      .crossing (match w with
        | .y => if wa < wb then 1 else -1
        | .x => if wb < wa then 1 else -1)
    else if q = so then .degenerate
    else .miss
  else .miss

/-- The parts of a piece that are monotonic along `w`: the piece cut at the extrema of
its segment along `w` that fall strictly inside it. -/
def monoParts (cfg : Config) (w : Axis) (m : Monotonic) : List Monotonic :=
  (intervals m.t1 m.t0 ((m.seg.extrema cfg w).filter (fun t => decide (m.t0 < t ∧ t < m.t1)))).map
    (fun iv => { m with t0 := iv.1, t1 := iv.2 })

/-- The hits of the ray from `sample` on the pieces of the contours other than
`own`. -/
def rayHits (cfg : Config) (w : Axis) (edges : List Monotonic) (own : Nat) (sample : BasePoint) :
    List Hit :=
  (MonotonicFindAt ((edges.filter (fun m => decide (m.contour ≠ own))).flatMap (monoParts cfg w))
      w (sample.coord w)).map (rayHit cfg w sample)

/-- Sum of the crossings among the hits. -/
def crossingSum : List Hit → Int
  | [] => 0
  | .crossing s :: rest => s + crossingSum rest
  | _ :: rest => crossingSum rest

/-- Modelled from the spec: "summing, over all other contours' edges crossed, +1 or −1 per
crossing"; `none` when "a degenerate ray is detected" (§4.4). -/
def tryRay (cfg : Config) (w : Axis) (edges : List Monotonic) (own : Nat) (sample : BasePoint) :
    Option Int :=
  let hs := rayHits cfg w edges own sample
  if Hit.degenerate ∈ hs then none else some (crossingSum hs)

/-- The `k`-th sample point of an edge: its midpoint, moved along the edge by `k`
offsets. -/
def samplePoint (cfg : Config) (m : Monotonic) (k : Nat) : BasePoint :=
  m.seg.eval ((m.t0 + m.t1) / 2 + (k : ℚ) * cfg.offset * (m.t1 - m.t0))

/-- Modelled from the spec: "if a degenerate ray is detected ..., perturb the sample point by a
small deterministic offset and retry"; "an explicit bounded loop with a hard iteration
cap" (§4.4, §9): at most `fuel` rays are cast, the `k`-th from the `k`-th sample point. -/
def retryRay (cfg : Config) (edges : List Monotonic) (m : Monotonic) : Nat → Nat → Option Int
  | 0, _ => none
  | fuel + 1, k =>
      match tryRay cfg .y edges m.contour (samplePoint cfg m k) with
      | some v => some v
      | none => retryRay cfg edges m fuel (k + 1)

/-- Modelled from the spec: the crossings summed for an edge: the horizontal ray, retried up to
`maxRetry` times, then "a fallback to a secondary axis" (§4.4), whose degenerate hits,
if any, are left out of the sum. -/
def othersWinding (cfg : Config) (edges : List Monotonic) (m : Monotonic) : Int :=
  match retryRay cfg edges m (cfg.maxRetry + 1) 0 with
  | some v => v
  | none => crossingSum (rayHits cfg .x edges m.contour (samplePoint cfg m 0))

/-- Modelled from the spec: the "per-contour orientation (clockwise/counter-clockwise) derived
from signed area" (§3): +1 counter-clockwise, −1 clockwise, 0 for zero area. -/
def orientation (c : SplineSet) : Int :=
  if 0 < signedArea c.segs then 1 else if signedArea c.segs < 0 then -1 else 0

/-- Modelled from the spec: the WindingEdge of §3: "a sub-segment bounded by two consecutive
split points, tagged with the signed winding count". -/
structure WindingEdge where
  piece : Monotonic
  winding : Int

/-- Modelled from the spec: the winding of an edge (§4.4): the crossings of the test ray with the
other contours, plus "the edge's own contour orientation contribution ... as the base
value".  The spec leaves open the side of the ray and the sign of a crossing; with the
ray toward −∞ and +1 for an upward edge, an edge that lies inside one other contour of
its own orientation gets winding 0, and an edge of a hole gets −2. -/
def assignWinding (cfg : Config) (orients : List Int) (edges : List Monotonic) : List WindingEdge :=
  edges.map (fun m =>
    { piece := m, winding := (orients.getD m.contour 0) + othersWinding cfg edges m })

/-! ## Reconstructor (§4.5) -/

/-- Modelled from the spec: the fill predicate (§4.5): "winding != 0 for nonzero rule, winding is
odd for even-odd rule". -/
def fills (rule : FillRule) (w : Int) : Bool :=
  match rule with
  | .nonzero => decide (w ≠ 0)
  | .evenodd => decide (w % 2 ≠ 0)

/-- Modelled from the spec: "retain only edges whose winding satisfies the predicate" (§4.5). -/
def retained (rule : FillRule) (es : List WindingEdge) : List Monotonic :=
  (es.filter (fun e => fills rule e.winding)).map (fun e => e.piece)

/-- The first element of the list that satisfies `p`, and the list without it. -/
def takeFirst (p : Monotonic → Bool) : List Monotonic → Option (Monotonic × List Monotonic)
  | [] => none
  | m :: rest =>
      if p m then some (m, rest)
      else (takeFirst p rest).map (fun r => (r.1, m :: r.2))

/-- Modelled from the spec: one walk (§4.5): "stitching an edge to the next retained edge sharing
its endpoint", until the walk is back at its start point (a closed contour, flag
`true`) or no retained edge leaves the current point (a dangling endpoint, flag
`false`).  Returns the edges walked (last first), the flag, and the edges left. -/
def walkOne (start : BasePoint) :
    Nat → BasePoint → List Monotonic → List Monotonic → List Monotonic × Bool × List Monotonic
  | 0, cur, acc, rem => (acc, decide (cur = start), rem)
  | fuel + 1, cur, acc, rem =>
      if cur = start then (acc, true, rem)
      else
        match takeFirst (fun e => decide (e.startPt = cur)) rem with
        | none => (acc, false, rem)
        | some (e, rem2) => walkOne start fuel e.endPt (e :: acc) rem2

/-- Walks until no retained edge is left: each walk starts at the first edge left. -/
def walkAll : Nat → List Monotonic → List (List Monotonic × Bool)
  | 0, _ => []
  | _ + 1, [] => []
  | fuel + 1, e :: rem =>
      let r := walkOne e.startPt rem.length e.endPt [e] rem
      (r.1.reverse, r.2.1) :: walkAll fuel r.2.2

/-- The output contour of a walk: the sub-segments of the edges walked, with its
backtracks removed. -/
def emit (walk : List Monotonic) : SplineSet :=
  SSRemoveBacktracks { segs := walk.map (fun m => m.seg.sub m.t0 m.t1), selected := false }

/-- Modelled from the spec: the outcome of an overlap removal: the output ContourSet, the
InconsistentWinding warning ("reported as a non-fatal warning", one flag per emitted
contour: `true` when its walk met a dangling endpoint) and the degenerate-input signal
of §4.2. -/
structure Outcome where
  contours : List SplineSet
  dangling : List Bool
  degenerate : List SplineSet

/-- Modelled from the spec: the error taxonomy of §7; "only MalformedInput is a hard failure
returned to the caller". -/
inductive OverlapError
  | MalformedInput (c : SplineSet)
deriving DecidableEq

/-- Modelled from the spec: the reconstructor of §4.5 over the edges with their windings: retain,
walk, remove backtracks; "the best-effort partial contour is still emitted".  A walk of
which backtrack removal leaves no edge gives no contour. -/
def reconstruct (rule : FillRule) (es : List WindingEdge) : List (SplineSet × Bool) :=
  ((walkAll (retained rule es).length (retained rule es)).map
    (fun r => (emit r.1, !r.2))).filter (fun r => !r.1.segs.isEmpty)

/-- The stages of §2 from the decomposer to the reconstructor, on the contours in
scope. -/
def removeOverlapOn (cfg : Config) (rule : FillRule) (cs : List SplineSet) : List (SplineSet × Bool) :=
  let ot : overlap_type := { rule := rule, selectedOnly := false }
  let pieces := SSsToMContours cfg cs ot
  let edges := splitPieces (find_intersections cfg pieces) pieces
  reconstruct rule (assignWinding cfg (cs.map orientation) edges)

/-- Modelled from the spec: `SplineSetRemoveOverlap` (declared in splineoverlap.h; the glyph
argument `sc`, which only names the glyph in messages, is left out).  §2: "input
contour set → decomposer → intersection finder → splitter/winding assigner →
reconstructor → output contour set".  §3: "open paths are rejected at the input
boundary"; §7: MalformedInput is "surfaced to the caller, no partial processing of that
contour".  Contours out of scope are handed on as they are. -/
def SplineSetRemoveOverlap (cfg : Config) (base : List SplineSet) (ot : overlap_type) :
    Except OverlapError Outcome :=
  match base.find? (fun c => !c.isClosed) with
  | some c => .error (.MalformedInput c)
  | none =>
      let r := removeOverlapOn cfg ot.rule (base.filter (inScope ot))
      .ok { contours := r.map (fun x => x.1) ++ base.filter (fun c => !inScope ot c),
            dangling := r.map (fun x => x.2),
            degenerate := degenerateContours cfg base ot }

/-- The start points of the segments of a contour: its vertices. -/
def SplineSet.vertices (c : SplineSet) : List BasePoint := c.segs.map Segment.first

/-- Modelled from the spec: a configuration (§9 names the fields, not their values): tolerances
of 2⁻²⁰, four retries with an offset of 1/64 of the edge, depth bound 24, and the
square root rounded down to a multiple of 2⁻²⁶ of the denominator. -/
def defaultConfig : Config :=
  { epsDisc := 1 / 2 ^ 20, epsPos := 1 / 2 ^ 20, epsAngle := 1 / 2 ^ 20, maxRetry := 4,
    offset := 1 / 64, maxDepth := 24,
    sqrt := fun d => (Nat.sqrt (d.num.toNat * d.den * 4 ^ 26) : ℚ) / ((d.den : ℚ) * 2 ^ 26) }

/-! ## Properties stated about the decomposer -/

/-- The discriminant of the derivative of a segment along an axis. -/
def Segment.disc (w : Axis) (s : Segment) : ℚ :=
  (s.derivCoeffs w).2.1 * (s.derivCoeffs w).2.1 - 4 * (s.derivCoeffs w).1 * (s.derivCoeffs w).2.2

/-- The segments form a path from `a` to `b`: the first starts at `a`, each starts at
the point where the one before it ends, and the final one ends at `b`. -/
inductive SegPath : BasePoint → BasePoint → List Segment → Prop
  | nil (a : BasePoint) : SegPath a a []
  | cons {s : Segment} {rest : List Segment} {b : BasePoint} :
      SegPath s.last b rest → SegPath s.first b (s :: rest)

/-- The unit square with a spur on its lower side: from (1,0) out to (2,0) and back. -/
def spurContour : SplineSet :=
  { segs := [.line ⟨0, 0⟩ ⟨1, 0⟩, .line ⟨1, 0⟩ ⟨2, 0⟩, .line ⟨2, 0⟩ ⟨1, 0⟩, .line ⟨1, 0⟩ ⟨1, 1⟩,
             .line ⟨1, 1⟩ ⟨0, 1⟩, .line ⟨0, 1⟩ ⟨0, 0⟩],
    selected := false }

/-- Overlap removal over all contours under the nonzero-winding rule. -/
def allNonzero : overlap_type := { rule := .nonzero, selectedOnly := false }

/-- The axis-parallel square with corners `(x0, y0)` and `(x1, y1)`, run through
counter-clockwise from `(x0, y0)` when `x0 < x1` and `y0 < y1`. -/
def square (x0 y0 x1 y1 : ℚ) : SplineSet :=
  { segs := [.line ⟨x0, y0⟩ ⟨x1, y0⟩, .line ⟨x1, y0⟩ ⟨x1, y1⟩, .line ⟨x1, y1⟩ ⟨x0, y1⟩,
             .line ⟨x0, y1⟩ ⟨x0, y0⟩],
    selected := false }

/-- The output contours of a call, none for a failed call. -/
def outContours (r : Except OverlapError Outcome) : List SplineSet :=
  match r with
  | .ok o => o.contours
  | .error _ => []

/-- The InconsistentWinding flags of a call. -/
def outDangling (r : Except OverlapError Outcome) : List Bool :=
  match r with
  | .ok o => o.dangling
  | .error _ => []

/-- The literal test of §8: "squares at (0,0)-(1,1) and (0.5,0.5)-(1.5,1.5)". -/
def unitSquares : List SplineSet := [square 0 0 1 1, square (1 / 2) (1 / 2) (3 / 2) (3 / 2)]

end SplineOverlap

/-! # The Qt drawing layer (`gdraw/gqtdraw.cc`) -/

namespace GQtDraw

/-! ## Rectangles and the clip of a window -/

/-- `GRect` of gdraw.h (the declaration is not among the sources): `int32 x, y, width,
height`.  The fields are integers; signed overflow, which C++ leaves undefined, is
outside the model. -/
structure GRect where
  x : Int
  y : Int
  width : Int
  height : Int
deriving DecidableEq

/-- The point `(px, py)` is covered by the rectangle: `x ≤ px < x + width` and
`y ≤ py < y + height`. -/
def GRect.covers (r : GRect) (px py : Int) : Prop :=
  r.x ≤ px ∧ px < r.x + r.width ∧ r.y ≤ py ∧ py < r.y + r.height

instance (r : GRect) (px py : Int) : Decidable (r.covers px py) := by
  unfold GRect.covers
  infer_instance

/-- The graphics context `GGC` of a window, with the fields the file sets. -/
structure GGC where
  clip : GRect
  fg : Nat
  bg : Nat
deriving DecidableEq

/-- `_GQtDraw_NewGGC`: a zeroed context with a clip of width and height `0x7fff`,
foreground 0 and background `0xffffff`. -/
def _GQtDraw_NewGGC : GGC :=
  { clip := { x := 0, y := 0, width := 0x7fff, height := 0x7fff }, fg := 0, bg := 0xffffff }

/-- The cursor shapes of Qt that `GQtDrawSetCursor` names, the arrow of a
default-constructed `QCursor`, and the blank cursor, which hides the pointer. -/
inductive QCursorShape
  | ArrowCursor
  | OpenHandCursor
  | WhatsThisCursor
  | CrossCursor
  | SizeAllCursor
  | IBeamCursor
  | WaitCursor
  | DragMoveCursor
  | BlankCursor
deriving DecidableEq

/-- The cursor installed on a widget: a shape, or the custom cursor number `i` of the
display (`gdisp->custom_cursors[i]`). -/
inductive WidgetCursor
  | shape (s : QCursorShape)
  | custom (i : Nat)
deriving DecidableEq

/-- The values of `enum cursor_types` of gdraw.h that the file names; the header is not
among the sources, so the values are parameters. -/
structure cursor_types where
  ct_default : Int
  ct_pointer : Int
  ct_backpointer : Int
  ct_hand : Int
  ct_question : Int
  ct_cross : Int
  ct_4way : Int
  ct_text : Int
  ct_watch : Int
  ct_draganddrop : Int
  ct_invisible : Int
  ct_user : Int

/-- The bits of `enum window_attr_mask` of gdraw.h that `_GQtDraw_CreateWindow` tests
in the part modelled here; a mask is the list of the bits that are set. -/
inductive window_attr_mask
  | wam_nodecor
  | wam_isdlg
  | wam_positioned
  | wam_centered
  | wam_transient
  | wam_cursor
deriving DecidableEq

/-- The fields of `GWindowAttrs` that `_GQtDraw_CreateWindow` reads in the part
modelled here; `transient` says whether the pointer `wattrs->transient` is set. -/
structure GWindowAttrs where
  mask : List window_attr_mask
  nodecoration : Bool
  is_dlg : Bool
  transient : Bool
  cursor : Int

/-- `GWINDOWATTRS_EMPTY`: no bit set, every field zero. -/
def GWINDOWATTRS_EMPTY : GWindowAttrs :=
  { mask := [], nodecoration := false, is_dlg := false, transient := false, cursor := 0 }

/-- A window: the fields of `GWindow` and of its `GQtWindow` that the functions below
read or write.  `parent` is the identity of the parent window, `eh` says whether an
event handler is set, `cursor` is the cursor installed on the Qt widget. -/
structure GWindow where
  ggc : GGC
  pos : GRect
  parent : Option Nat
  eh : Bool
  is_toplevel : Bool
  is_popup : Bool
  is_dlg : Bool
  is_centered : Bool
  is_visible : Bool
  is_dying : Bool
  current_cursor : Int
  cursor : WidgetCursor
deriving DecidableEq

/-- First statement of the clamping in `GQtDrawPushClip`: a clip reaching beyond the
right edge of `old` has its width cut to end there. -/
def clampRight (old clip : GRect) : GRect :=
  if clip.x + clip.width > old.x + old.width then
    { clip with width := old.x + old.width - clip.x }
  else clip

/-- Second statement: the same for the bottom edge and the height. -/
def clampBottom (old clip : GRect) : GRect :=
  if clip.y + clip.height > old.y + old.height then
    { clip with height := old.y + old.height - clip.y }
  else clip

/-- Third statement: a clip starting left of `old` loses the part left of it, or gets
the width 0, and starts at `old.x`. -/
def clampLeft (old clip : GRect) : GRect :=
  if clip.x < old.x then
    if clip.width > old.x - clip.x then
      { clip with width := clip.width - (old.x - clip.x), x := old.x }
    else
      { clip with width := 0, x := old.x }
  else clip

/-- Fourth statement: the same for the top edge and the height. -/
def clampTop (old clip : GRect) : GRect :=
  if clip.y < old.y then
    if clip.height > old.y - clip.y then
      { clip with height := clip.height - (old.y - clip.y), y := old.y }
    else
      { clip with height := 0, y := old.y }
  else clip

/-- The clamping of `GQtDrawPushClip`: the requested rectangle `rct` cut down to the
current clip `old` by the four statements in the order of the source, before the test
for negative extents. -/
def clampClip (old rct : GRect) : GRect :=
  clampTop old (clampLeft old (clampBottom old (clampRight old rct)))

/-- The new clip of `GQtDrawPushClip`: the clamped rectangle, or, "if we want to clip
to nothing", the rectangle of width and height 1 at (-100, -100). -/
def pushedClip (old rct : GRect) : GRect :=
  let clip := clampClip old rct
  if clip.height < 0 ∨ clip.width < 0 then { x := -100, y := -100, width := 1, height := 1 }
  else clip

/-- `GQtDrawPushClip(w, rct, old)`: returns the window with its new clip and the value
stored in `*old`, the clip current before the call.  The calls on the `QPainter`
(`save`, `setClipRect`) act on Qt state and are not modelled. -/
def GQtDrawPushClip (w : GWindow) (rct : GRect) : GWindow × GRect :=
  ({ w with ggc := { w.ggc with clip := pushedClip w.ggc.clip rct } }, w.ggc.clip)

/-- `GQtDrawPopClip(w, old)`: `old` is `none` for a null pointer. -/
def GQtDrawPopClip (w : GWindow) (old : Option GRect) : GWindow :=
  match old with
  | some r => { w with ggc := { w.ggc with clip := r } }
  | none => w

/-! ## Move and resize callbacks -/

/-- The member `u.resize` of a `GEvent` of type `et_resize`. -/
structure ResizeEvent where
  size : GRect
  dx : Int
  dy : Int
  dwidth : Int
  dheight : Int
  moved : Bool
  sized : Bool
deriving DecidableEq

/-- `_GQtDraw_CallEHChecked`: the handler, if there is one, is called with the event;
the result is the list of the events handed to the handler. -/
def _GQtDraw_CallEHChecked (eh : Bool) (event : ResizeEvent) : List ResizeEvent :=
  if eh then [event] else []

/-- What `GQtWidget::configureEvent` leaves: the window, the event it built, and the
events handed to the window's handler. -/
structure Configured where
  window : GWindow
  event : ResizeEvent
  calls : List ResizeEvent

/-- `GQtWidget::configureEvent` for a widget whose `geometry()` is `geom`. -/
def configureEvent (w : GWindow) (geom : GRect) : Configured :=
  let dx := geom.x - w.pos.x
  let dy := geom.y - w.pos.y
  let dwidth := geom.width - w.pos.width
  let dheight := geom.height - w.pos.height
  let moved := decide (dx ≠ 0 ∨ dy ≠ 0)
  let sized := decide (dwidth ≠ 0 ∨ dheight ≠ 0)
  let event : ResizeEvent :=
    { size := geom, dx := dx, dy := dy, dwidth := dwidth, dheight := dheight,
      moved := moved, sized := sized }
  let w1 : GWindow := if moved then { w with is_centered := false } else w
  let w2 : GWindow := { w1 with pos := event.size }
  if w2.is_toplevel && !sized && moved then
    { window := w2, event := event, calls := [] }
  else
    { window := w2, event := event, calls := _GQtDraw_CallEHChecked w2.eh event }

/-! ## Cursors -/

/-- The shape chosen by the `switch` of `GQtDrawSetCursor`: the arrow of the
default-constructed `QCursor` unless a case assigns another. -/
def cursorShape (K : cursor_types) (gcursor : Int) : QCursorShape :=
  if gcursor = K.ct_default ∨ gcursor = K.ct_backpointer ∨ gcursor = K.ct_pointer then
    .ArrowCursor
  else if gcursor = K.ct_hand then .OpenHandCursor
  else if gcursor = K.ct_question then .WhatsThisCursor
  else if gcursor = K.ct_cross then .CrossCursor
  else if gcursor = K.ct_4way then .SizeAllCursor
  else if gcursor = K.ct_text then .IBeamCursor
  else if gcursor = K.ct_watch then .WaitCursor
  else if gcursor = K.ct_draganddrop then .DragMoveCursor
  else .ArrowCursor

/-- `GQtDrawSetCursor(w, gcursor)` on a display with `ncustom` custom cursors
(`gdisp->custom_cursors.size()`).  The case `ct_invisible` of the `switch` returns at
once ("There is no *good* reason to make the cursor invisible"). -/
def GQtDrawSetCursor (K : cursor_types) (ncustom : Nat) (w : GWindow) (gcursor : Int) : GWindow :=
  if gcursor = K.ct_invisible then w
  else if gcursor ≥ K.ct_user then
    let index := gcursor - K.ct_user
    if index.toNat < ncustom then
      { w with cursor := .custom index.toNat, current_cursor := index + K.ct_user }
    else w
  else
    { w with cursor := .shape (cursorShape K gcursor), current_cursor := gcursor }

/-- `GQtDrawGetCursor`. -/
def GQtDrawGetCursor (w : GWindow) : Int := w.current_cursor

/-! ## Window creation -/

/-- `Qt::Widget`, as Qt defines `Qt::WindowType`. -/
def Qt.Widget : Nat := 0x0

/-- `Qt::Window`. -/
def Qt.Window : Nat := 0x1

/-- `Qt::Dialog`, which Qt defines as `0x2 | Window`. -/
def Qt.Dialog : Nat := 0x2 ||| Qt.Window

/-- `Qt::Popup`, which Qt defines as `0x8 | Window`. -/
def Qt.Popup : Nat := 0x8 ||| Qt.Window

/-- The window type flags that `_GQtDraw_CreateWindow` has computed when it sets
`is_toplevel`. -/
def windowFlags (w : Option Nat) (wattrs : GWindowAttrs) : Nat :=
  let flags := Qt.Widget
  let flags := if w = none then flags ||| Qt.Window else flags
  if (.wam_nodecor ∈ wattrs.mask) ∧ wattrs.nodecoration = true then flags ||| Qt.Popup
  else if (.wam_isdlg ∈ wattrs.mask) ∧ wattrs.is_dlg = true then flags ||| Qt.Dialog
  else flags

/-- `_GQtDraw_CreateWindow(gdisp, w, pos, eh, user_data, wattrs)`: the window record it
returns; `w` is `none` for a null parent, `wattrs` is `none` for a null pointer, which
stands for `GWINDOWATTRS_EMPTY`.  The creation of the Qt widget (title, icon, size
hints, background), the count of top windows of the display and the `et_create` call of
the handler are left out. -/
def _GQtDraw_CreateWindow (K : cursor_types) (ncustom : Nat) (w : Option Nat) (pos : GRect)
    (eh : Bool) (wattrs : Option GWindowAttrs) : GWindow :=
  let wattrs := wattrs.getD GWINDOWATTRS_EMPTY
  let nodecor : Bool := decide ((.wam_nodecor ∈ wattrs.mask) ∧ wattrs.nodecoration = true)
  let isdlg : Bool := decide ((.wam_isdlg ∈ wattrs.mask) ∧ wattrs.is_dlg = true)
  let toplevel : Bool := decide (windowFlags w wattrs &&& Qt.Window ≠ 0)
  let ret : GWindow :=
    { ggc := _GQtDraw_NewGGC,
      pos := pos,
      parent := w,
      eh := eh,
      is_toplevel := toplevel,
      is_popup := nodecor,
      is_dlg := nodecor || isdlg
        || (toplevel && decide (.wam_transient ∈ wattrs.mask) && wattrs.transient),
      is_centered := toplevel
        && (!decide (.wam_positioned ∈ wattrs.mask) || decide (.wam_centered ∈ wattrs.mask)),
      is_visible := false,
      is_dying := false,
      current_cursor := 0,
      cursor := .shape .ArrowCursor }
  if (.wam_cursor ∈ wattrs.mask) ∧ wattrs.cursor ≠ K.ct_default then
    GQtDrawSetCursor K ncustom ret wattrs.cursor
  else ret

/-- `GQtDrawCreateTopWindow`: no parent. -/
def GQtDrawCreateTopWindow (K : cursor_types) (ncustom : Nat) (pos : GRect) (eh : Bool)
    (gattrs : Option GWindowAttrs) : GWindow :=
  _GQtDraw_CreateWindow K ncustom none pos eh gattrs

/-- `GQtDrawCreateSubWindow`: the parent is the window `w`. -/
def GQtDrawCreateSubWindow (K : cursor_types) (ncustom : Nat) (w : Nat) (pos : GRect) (eh : Bool)
    (gattrs : Option GWindowAttrs) : GWindow :=
  _GQtDraw_CreateWindow K ncustom (some w) pos eh gattrs

/-! ## Expose requests -/

/-- Modelled from the spec: `QRect` belongs to Qt and is not among the sources; it is
modelled "as Qt defines it", by its two corners, both inside the rectangle, so that
`setX`/`setY` "move the left/top edge and keep the right/bottom edge" and
`setWidth`/`setHeight` "move the right/bottom edge". -/
structure QRect where
  x1 : Int
  y1 : Int
  x2 : Int
  y2 : Int
deriving DecidableEq

/-- Modelled from the spec: the default-constructed `QRect` of Qt, the null rectangle
with corners (0, 0) and (-1, -1). -/
def QRect.null : QRect := { x1 := 0, y1 := 0, x2 := -1, y2 := -1 }

/-- Modelled from the spec: `QRect::x()`, the left edge. -/
def QRect.x (r : QRect) : Int := r.x1

/-- Modelled from the spec: `QRect::y()`, the top edge. -/
def QRect.y (r : QRect) : Int := r.y1

/-- Modelled from the spec: `QRect::width()`. -/
def QRect.width (r : QRect) : Int := r.x2 - r.x1 + 1

/-- Modelled from the spec: `QRect::height()`. -/
def QRect.height (r : QRect) : Int := r.y2 - r.y1 + 1

/-- Modelled from the spec: `QRect::setX` moves the left edge and keeps the right
edge. -/
def QRect.setX (r : QRect) (x : Int) : QRect := { r with x1 := x }

/-- Modelled from the spec: `QRect::setY` moves the top edge and keeps the bottom
edge. -/
def QRect.setY (r : QRect) (y : Int) : QRect := { r with y1 := y }

/-- Modelled from the spec: `QRect::setWidth` moves the right edge. -/
def QRect.setWidth (r : QRect) (w : Int) : QRect := { r with x2 := r.x1 + w - 1 }

/-- Modelled from the spec: `QRect::setHeight` moves the bottom edge. -/
def QRect.setHeight (r : QRect) (h : Int) : QRect := { r with y2 := r.y1 + h - 1 }

/-- The point `(px, py)` lies in the rectangle: between the two corners, both
included. -/
def QRect.covers (r : QRect) (px py : Int) : Prop :=
  r.x1 ≤ px ∧ px ≤ r.x2 ∧ r.y1 ≤ py ∧ py ≤ r.y2

instance (r : QRect) (px py : Int) : Decidable (r.covers px py) := by
  unfold QRect.covers
  infer_instance

/-- `_GQtDraw_WindowOrParentsDying`: the argument is the chain the loop follows through
`w->parent`, the window first, ending where the pointer is null. -/
def _GQtDraw_WindowOrParentsDying : List GWindow → Bool
  | [] => false
  | w :: parents =>
      if w.is_dying then true
      else if w.is_toplevel then false
      else _GQtDraw_WindowOrParentsDying parents

/-- What `GQtDrawRequestExpose` asks of the widget: `update()` for the whole widget or
`update(clip)` for a rectangle. -/
inductive UpdateRequest
  | whole
  | region (clip : QRect)
deriving DecidableEq

/-- First statement of the clipping in `GQtDrawRequestExpose`, for a clip starting left
of the window. -/
def exposeLeft (clip : QRect) : QRect :=
  if clip.x < 0 then (clip.setWidth (clip.width + clip.x)).setX 0 else clip

/-- Second statement: the same for a clip starting above the window. -/
def exposeTop (clip : QRect) : QRect :=
  if clip.y < 0 then (clip.setHeight (clip.height + clip.y)).setY 0 else clip

/-- Third statement: a clip reaching beyond the width of the window. -/
def exposeRight (pos : GRect) (clip : QRect) : QRect :=
  if clip.x + clip.width > pos.width then clip.setWidth (pos.width - clip.x) else clip

/-- Fourth statement: a clip reaching beyond the height of the window. -/
def exposeBottom (pos : GRect) (clip : QRect) : QRect :=
  if clip.y + clip.height > pos.height then clip.setHeight (pos.height - clip.y) else clip

/-- The `QRect` that `GQtDrawRequestExpose` builds from `rect` with the four setters. -/
def exposeRect (rect : GRect) : QRect :=
  (((QRect.null.setX rect.x).setY rect.y).setWidth rect.width).setHeight rect.height

/-- `GQtDrawRequestExpose(w, rect, doclear)`: the call of `update` it makes on the
widget, if any.  `parents` is the chain of the parents of `w`; `rect` is `none` for a
null pointer; `doclear` is unused. -/
def GQtDrawRequestExpose (w : GWindow) (parents : List GWindow) (rect : Option GRect) :
    Option UpdateRequest :=
  if (!w.is_visible || _GQtDraw_WindowOrParentsDying (w :: parents)) = true then none
  else
    match rect with
    | none => some .whole
    | some rect =>
        let clip := exposeRect rect
        if rect.x < 0 ∨ rect.y < 0 ∨ rect.x + rect.width > w.pos.width ∨
            rect.y + rect.height > w.pos.height then
          let clip := exposeBottom w.pos (exposeRight w.pos (exposeTop (exposeLeft clip)))
          if clip.height ≤ 0 ∨ clip.width ≤ 0 then none else some (.region clip)
        else some (.region clip)

/-- The points that a request asks to repaint in a window with position `pos`: none
without a request, the window area for `update()`, the rectangle for `update(clip)`. -/
def exposed (pos : GRect) (req : Option UpdateRequest) (px py : Int) : Prop :=
  match req with
  | none => False
  | some .whole => GRect.covers ⟨0, 0, pos.width, pos.height⟩ px py
  | some (.region clip) => clip.covers px py

instance (pos : GRect) (req : Option UpdateRequest) (px py : Int) :
    Decidable (exposed pos req px py) := by
  unfold exposed
  split <;> infer_instance

/-! ## Inputs used in the statements -/

/-- A visible child window with clip `c`, a handler and the given position. -/
def windowWithClip (c : GRect) : GWindow :=
  { ggc := { clip := c, fg := 0, bg := 0xffffff },
    pos := { x := 0, y := 0, width := 640, height := 480 },
    parent := some 0, eh := true, is_toplevel := false, is_popup := false, is_dlg := false,
    is_centered := false, is_visible := true, is_dying := false, current_cursor := 0,
    cursor := .shape .ArrowCursor }

/-- A top-level window with a handler at the given position. -/
def topWindowAt (pos : GRect) : GWindow :=
  { ggc := _GQtDraw_NewGGC, pos := pos, parent := none, eh := true, is_toplevel := true,
    is_popup := false, is_dlg := false, is_centered := false, is_visible := true,
    is_dying := false, current_cursor := 0, cursor := .shape .ArrowCursor }

/-- An assignment of distinct values to the cursor constants, for the statements at
concrete inputs; the values of gdraw.h are not among the sources. -/
def sampleCursors : cursor_types :=
  { ct_default := 0, ct_pointer := 1, ct_backpointer := 2, ct_hand := 3, ct_question := 4,
    ct_cross := 5, ct_4way := 6, ct_text := 7, ct_watch := 8, ct_draganddrop := 9,
    ct_invisible := 10, ct_user := 11 }

/-- Attributes asking for an undecorated window: `wam_nodecor` with `nodecoration`. -/
def nodecorAttrs : GWindowAttrs :=
  { GWINDOWATTRS_EMPTY with mask := [.wam_nodecor], nodecoration := true }

/-- Attributes asking for a dialogue: `wam_isdlg` with `is_dlg`. -/
def dlgAttrs : GWindowAttrs :=
  { GWINDOWATTRS_EMPTY with mask := [.wam_isdlg], is_dlg := true }

/-- The rectangle that `GQtDrawPushClip` installs to clip to nothing. -/
def offWindow : GRect := { x := -100, y := -100, width := 1, height := 1 }

end GQtDraw

namespace SplineOverlap

/-! # Theorems -/

/-! ## The quadratic solver and the extrema -/

theorem ringFrom_contour (ci base k : Nat) (j : Nat) (ps : List (Nat × Segment × ℚ × ℚ)) :
    ∀ m ∈ ringFrom ci base k j ps, m.contour = ci := by
  induction ps generalizing j with
  | nil => simp [ringFrom]
  | cons p ps ih =>
      intro m hm
      simp only [ringFrom, List.mem_cons] at hm
      rcases hm with rfl | hm
      · rfl
      · exact ih (j + 1) m hm

theorem assemble_contour_ge (ci base : Nat) (L : List (List (Nat × Segment × ℚ × ℚ))) :
    ∀ m ∈ assemble ci base L, ci ≤ m.contour := by
  induction L generalizing ci base with
  | nil => simp [assemble]
  | cons ps rest ih =>
      intro m hm
      simp only [assemble, List.mem_append] at hm
      rcases hm with hm | hm
      · exact le_of_eq (ringFrom_contour ci base _ 0 ps m hm).symm
      · exact Nat.le_of_succ_le (ih (ci + 1) _ m hm)

theorem retraces_iff (a b : Segment) :
    retraces a b = true ↔ a.first = b.last ∧ a.last = b.first ∧ a.areaTerm + b.areaTerm = 0 := by
  simp [retraces, and_assoc]

theorem signedArea_cons (s : Segment) (l : List Segment) :
    signedArea (s :: l) = s.areaTerm + signedArea l := by
  simp [signedArea]

theorem signedArea_append (l1 l2 : List Segment) :
    signedArea (l1 ++ l2) = signedArea l1 + signedArea l2 := by
  simp [signedArea]

theorem SegPath.inv {a b : BasePoint} {l : List Segment} (h : SegPath a b l) (s : Segment)
    (rest : List Segment) (hl : l = s :: rest) : a = s.first ∧ SegPath s.last b rest := by
  induction h with
  | nil a => cases hl
  | cons h1 _ =>
      simp only [List.cons.injEq] at hl
      obtain ⟨rfl, rfl⟩ := hl
      exact ⟨rfl, h1⟩

theorem SegPath.ends_eq {a b : BasePoint} {l : List Segment} (h : SegPath a b l) (hl : l = []) :
    a = b := by
  induction h with
  | nil a => rfl
  | cons _ _ => cases hl

theorem SegPath.split {a c : BasePoint} (l1 l2 : List Segment) (h : SegPath a c (l1 ++ l2)) :
    ∃ b, SegPath a b l1 ∧ SegPath b c l2 := by
  induction l1 generalizing a with
  | nil => exact ⟨a, SegPath.nil a, by simpa using h⟩
  | cons s rest ih =>
      obtain ⟨rfl, h2⟩ := h.inv s (rest ++ l2) rfl
      obtain ⟨b, hb1, hb2⟩ := ih h2
      exact ⟨b, SegPath.cons hb1, hb2⟩

theorem closedFrom_iff_path (p : BasePoint) (s : Segment) (rest : List Segment) :
    closedFrom p (s :: rest) = true ↔ SegPath s.first p (s :: rest) := by
  induction rest generalizing s with
  | nil =>
      simp only [closedFrom, decide_eq_true_eq]
      constructor
      · intro h
        rw [← h]
        exact SegPath.cons (SegPath.nil _)
      · intro h
        exact ((h.inv s [] rfl).2).ends_eq rfl
  | cons b rest ih =>
      simp only [closedFrom, Bool.and_eq_true, decide_eq_true_eq]
      constructor
      · rintro ⟨h1, h2⟩
        have := (ih b).mp h2
        rw [← h1] at this
        exact SegPath.cons this
      · intro h
        have h2 := (h.inv s (b :: rest) rfl).2
        have h3 := (h2.inv b rest rfl).1
        refine ⟨h3, (ih b).mpr ?_⟩
        rw [← h3]
        exact h2

theorem isClosed_iff_cycle (c : SplineSet) : c.isClosed = true ↔ ∃ a, SegPath a a c.segs := by
  unfold SplineSet.isClosed
  cases hs : c.segs with
  | nil => simp only [true_iff]; exact ⟨⟨0, 0⟩, SegPath.nil _⟩
  | cons s rest =>
      simp only [closedFrom_iff_path]
      constructor
      · intro h
        exact ⟨s.first, h⟩
      · rintro ⟨a, h⟩
        have := (h.inv s rest rfl).1
        rw [this] at h
        exact h

theorem dropSpur_spec (l r : List Segment) (h : dropSpur l = some r) :
    signedArea r = signedArea l ∧ r.length + 2 = l.length
      ∧ ∀ a b, SegPath a b l → SegPath a b r := by
  induction l generalizing r with
  | nil => simp [dropSpur] at h
  | cons x rest ih =>
      cases rest with
      | nil => simp [dropSpur] at h
      | cons y rest =>
          simp only [dropSpur] at h
          by_cases hxy : retraces x y = true
          · simp only [hxy, if_true, Option.some.injEq] at h
            subst h
            obtain ⟨h1, h2, h3⟩ := (retraces_iff x y).mp hxy
            refine ⟨?_, by simp, ?_⟩
            · rw [signedArea_cons, signedArea_cons]
              linarith
            · intro a b hp
              obtain ⟨rfl, hp2⟩ := hp.inv x (y :: rest) rfl
              obtain ⟨_, hp3⟩ := hp2.inv y rest rfl
              rw [h1]
              exact hp3
          · simp only [hxy, Bool.false_eq_true, if_false, Option.map_eq_some'] at h
            obtain ⟨r2, hr2, rfl⟩ := h
            obtain ⟨h1, h2, h3⟩ := ih r2 hr2
            refine ⟨?_, by simp only [List.length_cons] at h2 ⊢; omega, ?_⟩
            · rw [signedArea_cons, signedArea_cons, h1, signedArea_cons]
            · intro a b hp
              obtain ⟨rfl, hp2⟩ := hp.inv x (y :: rest) rfl
              exact SegPath.cons (h3 _ _ hp2)

theorem dropWrap_spec (l r : List Segment) (h : dropWrap l = some r) :
    signedArea r = signedArea l ∧ r.length + 2 = l.length
      ∧ ∀ a, SegPath a a l → ∃ q, SegPath q q r := by
  cases l with
  | nil => simp [dropWrap] at h
  | cons x rest =>
      cases rest with
      | nil => simp [dropWrap] at h
      | cons y rest =>
          simp only [dropWrap] at h
          cases hz : (y :: rest).getLast? with
          | none => simp [hz] at h
          | some z =>
              rw [hz] at h
              by_cases hzx : retraces z x = true
              · simp only [hzx, if_true, Option.some.injEq] at h
                obtain ⟨ys, hys⟩ := List.getLast?_eq_some_iff.mp hz
                rw [hys, List.dropLast_concat] at h
                subst h
                obtain ⟨h1, h2, h3⟩ := (retraces_iff z x).mp hzx
                rw [hys]
                refine ⟨?_, by simp, ?_⟩
                · rw [signedArea_cons, signedArea_append, signedArea_cons]
                  simp only [signedArea, List.map_nil, List.sum_nil]
                  linarith
                · intro a hp
                  obtain ⟨rfl, hp2⟩ := hp.inv x (ys ++ [z]) rfl
                  obtain ⟨b, hb1, hb2⟩ := SegPath.split ys [z] hp2
                  have hb := (hb2.inv z [] rfl).1
                  rw [hb, h1] at hb1
                  exact ⟨_, hb1⟩
              · simp [hzx] at h

theorem spurStep_spec (l r : List Segment) (h : spurStep l = some r) :
    signedArea r = signedArea l ∧ r.length + 2 = l.length
      ∧ ∀ a, SegPath a a l → ∃ q, SegPath q q r := by
  unfold spurStep at h
  cases hd : dropSpur l with
  | some r2 =>
      rw [hd] at h
      simp only [Option.some.injEq] at h
      subst h
      obtain ⟨h1, h2, h3⟩ := dropSpur_spec l r2 hd
      exact ⟨h1, h2, fun a hp => ⟨a, h3 a a hp⟩⟩
  | none =>
      rw [hd] at h
      exact dropWrap_spec l r h

theorem dropSpur_none (l : List Segment) (h : dropSpur l = none) (i : Nat) (a b : Segment)
    (ha : l[i]? = some a) (hb : l[i + 1]? = some b) : retraces a b = false := by
  induction l generalizing i with
  | nil => simp at ha
  | cons x rest ih =>
      cases rest with
      | nil => simp at hb
      | cons y rest =>
          simp only [dropSpur] at h
          by_cases hxy : retraces x y = true
          · simp [hxy] at h
          · simp only [hxy, Bool.false_eq_true, if_false, Option.map_eq_none'] at h
            cases i with
            | zero =>
                simp only [List.getElem?_cons_zero, Option.some.injEq, zero_add,
                  List.getElem?_cons_succ] at ha hb
                subst ha hb
                simpa using hxy
            | succ i =>
                simp only [List.getElem?_cons_succ] at ha hb
                exact ih h i (by simpa using ha) (by simpa using hb)

theorem dropWrap_none (l : List Segment) (h : dropWrap l = none) (h2 : 2 ≤ l.length)
    (z a : Segment) (hz : l[l.length - 1]? = some z) (ha : l[0]? = some a) :
    retraces z a = false := by
  cases l with
  | nil => simp at h2
  | cons x rest =>
      cases rest with
      | nil => simp at h2
      | cons y rest =>
          simp only [List.getElem?_cons_zero, Option.some.injEq] at ha
          subst ha
          have hlast : (y :: rest).getLast? = some z := by
            rw [List.getLast?_eq_getElem?]
            simpa using hz
          simp only [dropWrap, hlast] at h
          by_cases hzx : retraces z x = true
          · simp [hzx] at h
          · simpa using hzx

theorem dropSpur_some (l r : List Segment) (h : dropSpur l = some r) :
    ∃ i a b, l[i]? = some a ∧ l[i + 1]? = some b ∧ retraces a b = true := by
  induction l generalizing r with
  | nil => simp [dropSpur] at h
  | cons x rest ih =>
      cases rest with
      | nil => simp [dropSpur] at h
      | cons y rest =>
          simp only [dropSpur] at h
          by_cases hxy : retraces x y = true
          · exact ⟨0, x, y, by simp, by simp, hxy⟩
          · simp only [hxy, Bool.false_eq_true, if_false, Option.map_eq_some'] at h
            obtain ⟨r2, hr2, _⟩ := h
            obtain ⟨i, a, b, ha, hb, hab⟩ := ih r2 hr2
            exact ⟨i + 1, a, b, by simpa using ha, by simpa using hb, hab⟩

theorem dropWrap_some (l r : List Segment) (h : dropWrap l = some r) :
    2 ≤ l.length ∧ ∃ z x, l[l.length - 1]? = some z ∧ l[0]? = some x ∧ retraces z x = true := by
  cases l with
  | nil => simp [dropWrap] at h
  | cons x rest =>
      cases rest with
      | nil => simp [dropWrap] at h
      | cons y rest =>
          simp only [dropWrap] at h
          cases hz : (y :: rest).getLast? with
          | none => simp [hz] at h
          | some z =>
              rw [hz] at h
              by_cases hzx : retraces z x = true
              · refine ⟨by simp, z, x, ?_, by simp, hzx⟩
                rw [List.getLast?_eq_getElem?] at hz
                simpa using hz
              · simp [hzx] at h

theorem spurStep_none_iff (l : List Segment) : spurStep l = none ↔ ¬ HasSpur l := by
  constructor
  · intro h
    have hd : dropSpur l = none := by
      unfold spurStep at h
      cases hd : dropSpur l with
      | some r => rw [hd] at h; cases h
      | none => rfl
    have hw : dropWrap l = none := by
      unfold spurStep at h
      rw [hd] at h
      exact h
    rintro ⟨h2, i, a, b, ha, hb, hab⟩
    have hi : i < l.length := by
      by_contra hn
      rw [List.getElem?_eq_none (Nat.le_of_not_lt hn)] at ha
      cases ha
    by_cases hlt : i + 1 < l.length
    · rw [Nat.mod_eq_of_lt hlt] at hb
      rw [dropSpur_none l hd i a b ha hb] at hab
      cases hab
    · have hi2 : i + 1 = l.length := by omega
      rw [hi2, Nat.mod_self] at hb
      have hz : l[l.length - 1]? = some a := by
        have : l.length - 1 = i := by omega
        rw [this]
        exact ha
      rw [dropWrap_none l hw h2 a b hz hb] at hab
      cases hab
  · intro h
    cases hs : spurStep l with
    | none => rfl
    | some r =>
        exfalso
        apply h
        unfold spurStep at hs
        cases hd : dropSpur l with
        | some r2 =>
            obtain ⟨i, a, b, ha, hb, hab⟩ := dropSpur_some l r2 hd
            have hlt : i + 1 < l.length := by
              by_contra hn
              rw [List.getElem?_eq_none (Nat.le_of_not_lt hn)] at hb
              cases hb
            refine ⟨by omega, i, a, b, ha, ?_, hab⟩
            rw [Nat.mod_eq_of_lt hlt]
            exact hb
        | none =>
            rw [hd] at hs
            obtain ⟨h2, z, x, hz, hx, hzx⟩ := dropWrap_some l r hs
            refine ⟨h2, l.length - 1, z, x, hz, ?_, hzx⟩
            have : l.length - 1 + 1 = l.length := by omega
            rw [this, Nat.mod_self]
            exact hx

theorem removeSpurs_spec (fuel : Nat) (l : List Segment) (hf : l.length ≤ fuel) :
    spurStep (removeSpurs fuel l) = none
      ∧ signedArea (removeSpurs fuel l) = signedArea l
      ∧ ((∃ a, SegPath a a l) → ∃ q, SegPath q q (removeSpurs fuel l))
      ∧ (spurStep l ≠ none → (removeSpurs fuel l).length + 2 ≤ l.length)
      ∧ (removeSpurs fuel l).length ≤ l.length := by
  induction fuel generalizing l with
  | zero =>
      have hl : l = [] := List.length_eq_zero.mp (Nat.le_zero.mp hf)
      subst hl
      refine ⟨rfl, rfl, fun h => h, fun h => absurd rfl h, Nat.le_refl _⟩
  | succ fuel ih =>
      cases hs : spurStep l with
      | none =>
          have e : removeSpurs (fuel + 1) l = l := by simp only [removeSpurs, hs]
          rw [e]
          exact ⟨hs, rfl, fun h => h, fun h => absurd rfl h, Nat.le_refl _⟩
      | some r =>
          have e : removeSpurs (fuel + 1) l = removeSpurs fuel r := by simp only [removeSpurs, hs]
          rw [e]
          obtain ⟨h1, h2, h3⟩ := spurStep_spec l r hs
          obtain ⟨i1, i2, i3, _, i5⟩ := ih r (by omega)
          refine ⟨i1, by rw [i2, h1], ?_, fun _ => by omega, by omega⟩
          rintro ⟨a, ha⟩
          exact i3 (h3 a ha)

/-- C6: for every closed contour that contains a spur (a cyclically adjacent pair of
edges with the same two endpoints, traversed in opposite directions, enclosing zero
area), `SSRemoveBacktracks` removes at least that pair of edges, leaves a contour in
which no cyclically adjacent pair retraces, which is closed again and encloses the same
signed area as the input; hence the area of the simple shape that is left when a spur
`a, b` is taken out of the input, wherever along the cycle the spur sits. -/
theorem SSRemoveBacktracks_removes_spurs (ss : SplineSet) (hcl : ss.isClosed = true)
    (hsp : HasSpur ss.segs) :
    ¬ HasSpur (SSRemoveBacktracks ss).segs
    ∧ (SSRemoveBacktracks ss).segs.length + 2 ≤ ss.segs.length
    ∧ (SSRemoveBacktracks ss).isClosed = true
    ∧ signedArea (SSRemoveBacktracks ss).segs = signedArea ss.segs
    ∧ (∀ pre a b post, ss.segs = pre ++ a :: b :: post → retraces a b = true →
        signedArea (SSRemoveBacktracks ss).segs = signedArea (pre ++ post))
    ∧ (∀ a b mid, ss.segs = b :: (mid ++ [a]) → retraces a b = true →
        signedArea (SSRemoveBacktracks ss).segs = signedArea mid) := by
  obtain ⟨h1, h2, h3, h4, _⟩ := removeSpurs_spec ss.segs.length ss.segs (Nat.le_refl _)
  have hne : spurStep ss.segs ≠ none := fun h => (spurStep_none_iff _).mp h hsp
  have harea : signedArea (SSRemoveBacktracks ss).segs = signedArea ss.segs := h2
  refine ⟨(spurStep_none_iff _).mp h1, h4 hne, ?_, harea, ?_, ?_⟩
  · exact (isClosed_iff_cycle _).mpr (h3 ((isClosed_iff_cycle ss).mp hcl))
  · intro pre a b post hseg hab
    obtain ⟨_, _, h5⟩ := (retraces_iff a b).mp hab
    rw [harea, hseg, signedArea_append, signedArea_cons, signedArea_cons, signedArea_append]
    linarith
  · intro a b mid hseg hab
    obtain ⟨_, _, h5⟩ := (retraces_iff a b).mp hab
    rw [harea, hseg, signedArea_cons, signedArea_append, signedArea_cons]
    simp only [signedArea, List.map_nil, List.sum_nil]
    linarith

/-- Witness of C6: the unit square with a spur from (1,0) to (2,0) and back; what is
left is the unit square. -/
theorem SSRemoveBacktracks_removes_spurs_witness :
    spurContour.isClosed = true ∧ HasSpur spurContour.segs
    ∧ ¬ HasSpur (SSRemoveBacktracks spurContour).segs
    ∧ (SSRemoveBacktracks spurContour).segs
        = [.line ⟨0, 0⟩ ⟨1, 0⟩, .line ⟨1, 0⟩ ⟨1, 1⟩, .line ⟨1, 1⟩ ⟨0, 1⟩, .line ⟨0, 1⟩ ⟨0, 0⟩] :=
  have h1 : spurContour.isClosed = true := by decide!
  have h2 : HasSpur spurContour.segs :=
    ⟨by decide, 1, .line ⟨1, 0⟩ ⟨2, 0⟩, .line ⟨2, 0⟩ ⟨1, 0⟩, rfl, rfl, by decide!⟩
  ⟨h1, h2, (SSRemoveBacktracks_removes_spurs spurContour h1 h2).1, by decide!⟩

/-! ## The entry point -/

/-- The entry point fails exactly when some input contour is open; the failure is
MalformedInput naming an open contour of the input; whenever every input contour is
closed the call returns an outcome. -/
theorem SplineSetRemoveOverlap_fails_iff_open (cfg : Config) (base : List SplineSet)
    (ot : overlap_type) :
    ((∃ e, SplineSetRemoveOverlap cfg base ot = .error e) ↔ ∃ c ∈ base, c.isClosed = false)
    ∧ (∀ e, SplineSetRemoveOverlap cfg base ot = .error e →
        ∃ c ∈ base, c.isClosed = false ∧ e = .MalformedInput c)
    ∧ ((∀ c ∈ base, c.isClosed = true) → ∃ out, SplineSetRemoveOverlap cfg base ot = .ok out) := by
  unfold SplineSetRemoveOverlap
  cases hf : base.find? (fun c => !c.isClosed) with
  | some c =>
      have hc := List.find?_some hf
      have hmem := List.mem_of_find?_eq_some hf
      simp only [Bool.not_eq_true'] at hc
      refine ⟨⟨fun _ => ⟨c, hmem, hc⟩, fun _ => ⟨_, rfl⟩⟩, ?_, ?_⟩
      · intro e he
        simp only [Except.error.injEq] at he
        exact ⟨c, hmem, hc, he.symm⟩
      · intro hall
        rw [hall c hmem] at hc
        cases hc
  | none =>
      rw [List.find?_eq_none] at hf
      refine ⟨⟨?_, ?_⟩, ?_, fun _ => ⟨_, rfl⟩⟩
      · rintro ⟨e, he⟩
        cases he
      · rintro ⟨c, hmem, hc⟩
        have := hf c hmem
        simp [hc] at this
      · intro e he
        cases he

/-! ## The literal tests of §8 -/

/-- C1 (amended): for the two unit squares at (0,0)-(1,1) and (0.5,0.5)-(1.5,1.5) under
the nonzero-winding rule, `SplineSetRemoveOverlap` returns exactly one contour, closed
and without warning: the octagon whose vertices are the eight corners of the union
shape, of enclosed area 1.75. -/
theorem unitSquares_union_octagon :
    outContours (SplineSetRemoveOverlap defaultConfig unitSquares allNonzero)
      = [{ segs := [.line ⟨0, 0⟩ ⟨1, 0⟩, .line ⟨1, 0⟩ ⟨1, 1 / 2⟩, .line ⟨1, 1 / 2⟩ ⟨3 / 2, 1 / 2⟩,
                    .line ⟨3 / 2, 1 / 2⟩ ⟨3 / 2, 3 / 2⟩, .line ⟨3 / 2, 3 / 2⟩ ⟨1 / 2, 3 / 2⟩,
                    .line ⟨1 / 2, 3 / 2⟩ ⟨1 / 2, 1⟩, .line ⟨1 / 2, 1⟩ ⟨0, 1⟩,
                    .line ⟨0, 1⟩ ⟨0, 0⟩],
           selected := false }]
    ∧ (outContours (SplineSetRemoveOverlap defaultConfig unitSquares allNonzero)).map
        SplineSet.vertices
      = [[⟨0, 0⟩, ⟨1, 0⟩, ⟨1, 1 / 2⟩, ⟨3 / 2, 1 / 2⟩, ⟨3 / 2, 3 / 2⟩, ⟨1 / 2, 3 / 2⟩, ⟨1 / 2, 1⟩,
          ⟨0, 1⟩]]
    ∧ (outContours (SplineSetRemoveOverlap defaultConfig unitSquares allNonzero)).map
        (fun c => signedArea c.segs) = [7 / 4]
    ∧ (outContours (SplineSetRemoveOverlap defaultConfig unitSquares allNonzero)).map
        SplineSet.isClosed = [true]
    ∧ outDangling (SplineSetRemoveOverlap defaultConfig unitSquares allNonzero) = [false] := by
  decide!

/-- C1 as stated fails: the one contour returned for the two unit squares has eight
vertices, not six, and no contour of six vertices is returned. -/
theorem unitSquares_union_not_hexagon :
    (outContours (SplineSetRemoveOverlap defaultConfig unitSquares allNonzero)).map
        (fun c => c.vertices.length) = [8]
    ∧ ¬ ∃ c ∈ outContours (SplineSetRemoveOverlap defaultConfig unitSquares allNonzero),
        c.vertices.length = 6 := by
  decide!

theorem Segment.sub_first (s : Segment) (u v : ℚ) : (s.sub u v).first = s.eval u := by
  cases s with
  | line p0 p1 => rfl
  | cubic p0 c0 c1 p1 =>
      simp only [Segment.sub, Segment.first, Segment.eval, blossom, lerp, lerp1, bern,
        BasePoint.mk.injEq]
      constructor <;> ring

theorem Segment.sub_last (s : Segment) (u v : ℚ) : (s.sub u v).last = s.eval v := by
  cases s with
  | line p0 p1 => rfl
  | cubic p0 c0 c1 p1 =>
      simp only [Segment.sub, Segment.last, Segment.eval, blossom, lerp, lerp1, bern,
        BasePoint.mk.injEq]
      constructor <;> ring

theorem SegPath.concat_path {a b c : BasePoint} {l1 l2 : List Segment} (h1 : SegPath a b l1)
    (h2 : SegPath b c l2) : SegPath a c (l1 ++ l2) := by
  induction h1 with
  | nil a => simpa using h2
  | cons _ ih => exact SegPath.cons (ih h2)

theorem SegPath.snoc {a : BasePoint} {l : List Monotonic} (e : Monotonic)
    (h : SegPath a e.startPt (l.reverse.map (fun m => m.seg.sub m.t0 m.t1))) :
    SegPath a e.endPt ((e :: l).reverse.map (fun m => m.seg.sub m.t0 m.t1)) := by
  rw [List.reverse_cons, List.map_append]
  refine h.concat_path ?_
  have h1 : SegPath (e.seg.sub e.t0 e.t1).first (e.seg.sub e.t0 e.t1).last
      [e.seg.sub e.t0 e.t1] := SegPath.cons (SegPath.nil _)
  rw [Segment.sub_first, Segment.sub_last] at h1
  exact h1

theorem takeFirst_spec (p : Monotonic → Bool) (l : List Monotonic) (e : Monotonic)
    (r : List Monotonic) (h : takeFirst p l = some (e, r)) : p e = true := by
  induction l generalizing r with
  | nil => simp [takeFirst] at h
  | cons m rest ih =>
      simp only [takeFirst] at h
      by_cases hm : p m = true
      · simp only [hm, if_true, Option.some.injEq, Prod.mk.injEq] at h
        rw [← h.1]
        exact hm
      · simp only [hm, Bool.false_eq_true, if_false, Option.map_eq_some', Prod.mk.injEq] at h
        obtain ⟨x, hx, hx1, _⟩ := h
        cases x with
        | mk x1 x2 =>
            simp only at hx1
            subst hx1
            exact ih x2 hx

theorem walkOne_closed (start : BasePoint) (fuel : Nat) (cur : BasePoint)
    (acc rem : List Monotonic)
    (hacc : SegPath start cur (acc.reverse.map (fun m => m.seg.sub m.t0 m.t1)))
    (hflag : (walkOne start fuel cur acc rem).2.1 = true) :
    SegPath start start
      ((walkOne start fuel cur acc rem).1.reverse.map (fun m => m.seg.sub m.t0 m.t1)) := by
  induction fuel generalizing cur acc rem with
  | zero =>
      simp only [walkOne, decide_eq_true_eq] at hflag ⊢
      rw [hflag] at hacc
      exact hacc
  | succ fuel ih =>
      simp only [walkOne] at hflag ⊢
      by_cases hc : cur = start
      · simp only [hc, if_true] at hflag ⊢
        rw [hc] at hacc
        exact hacc
      · simp only [hc, if_false] at hflag ⊢
        cases ht : takeFirst (fun e => decide (e.startPt = cur)) rem with
        | none =>
            rw [ht] at hflag
            simp at hflag
        | some x =>
            cases x with
            | mk e rem2 =>
                rw [ht] at hflag
                try rw [ht]
                simp only at hflag ⊢
                have he := takeFirst_spec _ rem e rem2 ht
                simp only [decide_eq_true_eq] at he
                rw [← he] at hacc
                exact ih e.endPt (e :: acc) rem2 (SegPath.snoc e hacc) hflag

theorem walkAll_closed (fuel : Nat) (l : List Monotonic) :
    ∀ w ∈ walkAll fuel l, w.2 = true →
      ∃ a, SegPath a a (w.1.map (fun m => m.seg.sub m.t0 m.t1)) := by
  induction fuel generalizing l with
  | zero => simp [walkAll]
  | succ fuel ih =>
      cases l with
      | nil => simp [walkAll]
      | cons e rem =>
          intro w hw hflag
          simp only [walkAll, List.mem_cons] at hw
          rcases hw with rfl | hw
          · simp only at hflag ⊢
            refine ⟨e.startPt, walkOne_closed e.startPt rem.length e.endPt [e] rem ?_ hflag⟩
            exact SegPath.snoc (l := []) e (SegPath.nil _)
          · exact ih _ w hw hflag

theorem emit_closed (walk : List Monotonic)
    (h : ∃ a, SegPath a a (walk.map (fun m => m.seg.sub m.t0 m.t1))) :
    (emit walk).isClosed = true := by
  rw [isClosed_iff_cycle]
  exact (removeSpurs_spec _ _ (Nat.le_refl _)).2.2.1 h

theorem reconstruct_closed (rule : FillRule) (es : List WindingEdge) :
    ∀ x ∈ reconstruct rule es, x.2 = false → x.1.isClosed = true := by
  intro x hx hflag
  unfold reconstruct at hx
  rw [List.mem_filter, List.mem_map] at hx
  obtain ⟨⟨w, hw, rfl⟩, _⟩ := hx
  simp only [Bool.not_eq_false'] at hflag
  exact emit_closed w.1 (walkAll_closed _ _ w hw hflag)

/-! ## The reconstructor keeps the filled edges -/

theorem takeFirst_perm (p : Monotonic → Bool) (l : List Monotonic) (e : Monotonic)
    (r : List Monotonic) (h : takeFirst p l = some (e, r)) : (e :: r).Perm l := by
  induction l generalizing r with
  | nil => simp [takeFirst] at h
  | cons m rest ih =>
      simp only [takeFirst] at h
      by_cases hm : p m = true
      · simp only [hm, if_true, Option.some.injEq, Prod.mk.injEq] at h
        rw [← h.1, ← h.2]
      · simp only [hm, Bool.false_eq_true, if_false, Option.map_eq_some', Prod.mk.injEq] at h
        obtain ⟨x, hx, hx1, hx2⟩ := h
        cases x with
        | mk x1 x2 =>
            simp only at hx1 hx2
            subst hx1
            subst hx2
            exact (List.Perm.swap m x1 x2).trans ((ih x2 hx).cons m)

theorem walkOne_perm (start : BasePoint) (fuel : Nat) (cur : BasePoint)
    (acc rem : List Monotonic) :
    ((walkOne start fuel cur acc rem).1 ++ (walkOne start fuel cur acc rem).2.2).Perm
      (acc ++ rem) := by
  induction fuel generalizing cur acc rem with
  | zero => simp [walkOne]
  | succ fuel ih =>
      simp only [walkOne]
      by_cases hc : cur = start
      · simp [hc]
      · simp only [hc, if_false]
        cases ht : takeFirst (fun e => decide (e.startPt = cur)) rem with
        | none => simp
        | some x =>
            cases x with
            | mk e rem2 =>
                simp only
                refine (ih e.endPt (e :: acc) rem2).trans ?_
                have hp := takeFirst_perm _ rem e rem2 ht
                refine List.Perm.trans ?_ (hp.append_left acc)
                rw [List.cons_append]
                exact List.perm_middle.symm

theorem walkOne_rest_length (start : BasePoint) (fuel : Nat) (cur : BasePoint)
    (acc rem : List Monotonic) :
    (walkOne start fuel cur acc rem).2.2.length ≤ rem.length := by
  induction fuel generalizing cur acc rem with
  | zero => simp [walkOne]
  | succ fuel ih =>
      simp only [walkOne]
      by_cases hc : cur = start
      · simp [hc]
      · simp only [hc, if_false]
        cases ht : takeFirst (fun e => decide (e.startPt = cur)) rem with
        | none => simp
        | some x =>
            cases x with
            | mk e rem2 =>
                simp only
                have hp := (takeFirst_perm _ rem e rem2 ht).length_eq
                simp only [List.length_cons] at hp
                exact (ih e.endPt (e :: acc) rem2).trans (by omega)

theorem walkAll_perm (fuel : Nat) (l : List Monotonic) (h : l.length ≤ fuel) :
    ((walkAll fuel l).map Prod.fst).flatten.Perm l := by
  induction fuel generalizing l with
  | zero =>
      have : l = [] := List.length_eq_zero.mp (Nat.le_zero.mp h)
      subst this
      simp [walkAll]
  | succ fuel ih =>
      cases l with
      | nil => simp [walkAll]
      | cons e rem =>
          simp only [walkAll, List.map_cons, List.flatten_cons]
          have hlen := walkOne_rest_length e.startPt rem.length e.endPt [e] rem
          simp only [List.length_cons] at h
          have h1 := ih (walkOne e.startPt rem.length e.endPt [e] rem).2.2 (by omega)
          have h2 := walkOne_perm e.startPt rem.length e.endPt [e] rem
          refine List.Perm.trans ?_ h2
          exact ((List.reverse_perm _).append_right _).trans (h1.append_left _)

theorem dropSpur_sublist (l r : List Segment) (h : dropSpur l = some r) : r.Sublist l := by
  induction l generalizing r with
  | nil => simp [dropSpur] at h
  | cons x rest ih =>
      cases rest with
      | nil => simp [dropSpur] at h
      | cons y rest =>
          simp only [dropSpur] at h
          by_cases hxy : retraces x y = true
          · simp only [hxy, if_true, Option.some.injEq] at h
            subst h
            exact ((List.sublist_cons_self y _).trans (List.sublist_cons_self x _))
          · simp only [hxy, Bool.false_eq_true, if_false, Option.map_eq_some'] at h
            obtain ⟨r2, hr2, rfl⟩ := h
            exact (ih r2 hr2).cons₂ x

theorem dropWrap_sublist (l r : List Segment) (h : dropWrap l = some r) : r.Sublist l := by
  cases l with
  | nil => simp [dropWrap] at h
  | cons x rest =>
      cases rest with
      | nil => simp [dropWrap] at h
      | cons y rest =>
          simp only [dropWrap] at h
          cases hz : (y :: rest).getLast? with
          | none => simp [hz] at h
          | some z =>
              rw [hz] at h
              by_cases hzx : retraces z x = true
              · simp only [hzx, if_true, Option.some.injEq] at h
                subst h
                exact (List.dropLast_sublist _).trans (List.sublist_cons_self x _)
              · simp [hzx] at h

theorem removeSpurs_sublist (fuel : Nat) (l : List Segment) :
    (removeSpurs fuel l).Sublist l := by
  induction fuel generalizing l with
  | zero => simp [removeSpurs]
  | succ fuel ih =>
      simp only [removeSpurs]
      cases hs : spurStep l with
      | none => simp
      | some r =>
          simp only
          refine (ih r).trans ?_
          unfold spurStep at hs
          cases hd : dropSpur l with
          | some r2 =>
              rw [hd] at hs
              simp only [Option.some.injEq] at hs
              subst hs
              exact dropSpur_sublist l _ hd
          | none =>
              rw [hd] at hs
              exact dropWrap_sublist l r hs

theorem mem_retained (rule : FillRule) (es : List WindingEdge) (m : Monotonic) :
    m ∈ retained rule es ↔ ∃ e ∈ es, e.piece = m ∧ fills rule e.winding = true := by
  unfold retained
  simp only [List.mem_map, List.mem_filter]
  constructor
  · rintro ⟨e, ⟨he, hf⟩, rfl⟩
    exact ⟨e, he, rfl, hf⟩
  · rintro ⟨e, he, rfl, hf⟩
    exact ⟨e, ⟨he, hf⟩, rfl⟩

/-- C11: the reconstructor retains an edge exactly when its winding number satisfies
the fill predicate, which is `winding ≠ 0` under the nonzero rule and `winding` odd
under the even-odd rule.  Every edge of an output contour is the curve of an edge whose
winding satisfies the predicate.  The retained edges are distributed over the walks,
each edge in one walk, and the output contours are the walks after `SSRemoveBacktracks`,
those that it empties left out: an edge satisfying the predicate is missing from the
output only when the spur removal took it. -/
theorem reconstruct_keeps_filled (rule : FillRule) (es : List WindingEdge) :
    (∀ w : Int, fills .nonzero w = true ↔ w ≠ 0) ∧
    (∀ w : Int, fills .evenodd w = true ↔ Odd w) ∧
    (∀ m : Monotonic,
      m ∈ retained rule es ↔ ∃ e ∈ es, e.piece = m ∧ fills rule e.winding = true) ∧
    (∀ c ∈ reconstruct rule es, ∀ s ∈ c.1.segs,
      ∃ e ∈ es, fills rule e.winding = true ∧ s = e.piece.seg.sub e.piece.t0 e.piece.t1) ∧
    (∃ walks : List (List Monotonic × Bool),
      (walks.map Prod.fst).flatten.Perm (retained rule es) ∧
      reconstruct rule es =
        (walks.map (fun r =>
          (SSRemoveBacktracks
            { segs := r.1.map (fun m => m.seg.sub m.t0 m.t1), selected := false }, !r.2))).filter
          (fun r => !r.1.segs.isEmpty)) := by
  refine ⟨?_, ?_, mem_retained rule es, ?_, ?_⟩
  · intro w
    simp [fills]
  · intro w
    simp only [fills, decide_eq_true_eq, Int.odd_iff]
    omega
  · intro c hc s hs
    unfold reconstruct at hc
    rw [List.mem_filter, List.mem_map] at hc
    obtain ⟨⟨w, hw, rfl⟩, _⟩ := hc
    simp only [emit, SSRemoveBacktracks] at hs
    have hs2 := (removeSpurs_sublist _ _).subset hs
    rw [List.mem_map] at hs2
    obtain ⟨m, hm, rfl⟩ := hs2
    have hmem : m ∈ ((walkAll (retained rule es).length (retained rule es)).map
        Prod.fst).flatten := by
      rw [List.mem_flatten]
      exact ⟨w.1, List.mem_map.mpr ⟨w, hw, rfl⟩, hm⟩
    have hret := (walkAll_perm _ _ (Nat.le_refl _)).subset hmem
    obtain ⟨e, he, rfl, hf⟩ := (mem_retained rule es m).mp hret
    exact ⟨e, he, hf, rfl⟩
  · exact ⟨walkAll (retained rule es).length (retained rule es),
      walkAll_perm _ _ (Nat.le_refl _), rfl⟩

end SplineOverlap

/-! # Theorems about the Qt drawing layer -/

namespace GQtDraw

/-! ## The clip stack -/

theorem clampClip_x (old rct : GRect) :
    (clampClip old rct).x = if rct.x < old.x then old.x else rct.x := by
  simp only [clampClip, clampTop, clampLeft, clampBottom, clampRight]
  split_ifs <;> rfl

theorem clampClip_y (old rct : GRect) :
    (clampClip old rct).y = if rct.y < old.y then old.y else rct.y := by
  simp only [clampClip, clampTop, clampLeft, clampBottom, clampRight]
  split_ifs <;> rfl

theorem clampClip_width (old rct : GRect) :
    (clampClip old rct).width =
      if rct.x < old.x then
        if (if rct.x + rct.width > old.x + old.width then old.x + old.width - rct.x
            else rct.width) > old.x - rct.x then
          (if rct.x + rct.width > old.x + old.width then old.x + old.width - rct.x
            else rct.width) - (old.x - rct.x)
        else 0
      else if rct.x + rct.width > old.x + old.width then old.x + old.width - rct.x
      else rct.width := by
  simp only [clampClip, clampTop, clampLeft, clampBottom, clampRight]
  split_ifs <;> rfl

theorem clampClip_height (old rct : GRect) :
    (clampClip old rct).height =
      if rct.y < old.y then
        if (if rct.y + rct.height > old.y + old.height then old.y + old.height - rct.y
            else rct.height) > old.y - rct.y then
          (if rct.y + rct.height > old.y + old.height then old.y + old.height - rct.y
            else rct.height) - (old.y - rct.y)
        else 0
      else if rct.y + rct.height > old.y + old.height then old.y + old.height - rct.y
      else rct.height := by
  simp only [clampClip, clampTop, clampLeft, clampBottom, clampRight]
  split_ifs <;> rfl

/-- C13, counterexample: with the clip (0, 0, 10, 10) and the requested rectangle
(20, 0, 5, 5), which lies to the right of the clip, the new clip covers the point
(-100, -100), which neither rectangle covers. -/
theorem GQtDrawPushClip_not_intersection :
    ¬ (∀ px py : Int,
        (GQtDrawPushClip (windowWithClip ⟨0, 0, 10, 10⟩) ⟨20, 0, 5, 5⟩).1.ggc.clip.covers px py ↔
          ((windowWithClip ⟨0, 0, 10, 10⟩).ggc.clip.covers px py ∧
            GRect.covers ⟨20, 0, 5, 5⟩ px py)) := by
  intro h
  have h1 := (h (-100) (-100)).mp (by decide)
  exact absurd h1 (by decide)

/-- C13, amended: for a current clip and a requested rectangle of non-negative width and
height, a point is covered by the clip after `GQtDrawPushClip` exactly when it is
covered by both rectangles, or when the requested rectangle starts beyond the right or
the bottom edge of the current clip and the point is (-100, -100); in that second case
no point is covered by both. -/
theorem GQtDrawPushClip_covers (w : GWindow) (rct : GRect)
    (hw : 0 ≤ w.ggc.clip.width) (hh : 0 ≤ w.ggc.clip.height)
    (hrw : 0 ≤ rct.width) (hrh : 0 ≤ rct.height) (px py : Int) :
    ((GQtDrawPushClip w rct).1.ggc.clip.covers px py ↔
      (w.ggc.clip.covers px py ∧ rct.covers px py) ∨
        ((rct.x > w.ggc.clip.x + w.ggc.clip.width ∨ rct.y > w.ggc.clip.y + w.ggc.clip.height) ∧
          px = -100 ∧ py = -100)) ∧
    ((rct.x > w.ggc.clip.x + w.ggc.clip.width ∨ rct.y > w.ggc.clip.y + w.ggc.clip.height) →
      ¬ (w.ggc.clip.covers px py ∧ rct.covers px py)) := by
  have ex := clampClip_x w.ggc.clip rct
  have ey := clampClip_y w.ggc.clip rct
  have ew := clampClip_width w.ggc.clip rct
  have eh := clampClip_height w.ggc.clip rct
  simp only [GQtDrawPushClip, pushedClip, GRect.covers]
  generalize clampClip w.ggc.clip rct = c at ex ey ew eh ⊢
  generalize w.ggc.clip = o at hw hh ex ey ew eh ⊢
  constructor
  · by_cases hneg : c.height < 0 ∨ c.width < 0
    · rw [if_pos hneg]
      simp only
      split_ifs at ex ey ew eh <;> omega
    · rw [if_neg hneg]
      split_ifs at ex ey ew eh <;> omega
  · intro h; omega

/-- C13, amended, at the clip (0, 0, 10, 10) and the rectangle (5, 5, 10, 10): the
point (7, 7) is covered by the new clip. -/
theorem GQtDrawPushClip_covers_witness :
    (GQtDrawPushClip (windowWithClip ⟨0, 0, 10, 10⟩) ⟨5, 5, 10, 10⟩).1.ggc.clip.covers 7 7 :=
  ((GQtDrawPushClip_covers (windowWithClip ⟨0, 0, 10, 10⟩) ⟨5, 5, 10, 10⟩
    (by decide) (by decide) (by decide) (by decide) 7 7).1).mpr (Or.inl (by decide))

/-- C14: `GQtDrawPushClip` stores the clip current before the call in `*old`, so a push
followed by a pop with that value gives back the window as it was, clip included; a
pop with a null `old` leaves the window, and so its clip, unchanged. -/
theorem GQtDrawPopClip_restores (w : GWindow) (rct : GRect) :
    (GQtDrawPushClip w rct).2 = w.ggc.clip ∧
    (GQtDrawPopClip (GQtDrawPushClip w rct).1 (some (GQtDrawPushClip w rct).2)).ggc.clip
      = w.ggc.clip ∧
    GQtDrawPopClip (GQtDrawPushClip w rct).1 (some (GQtDrawPushClip w rct).2) = w ∧
    (GQtDrawPopClip (GQtDrawPushClip w rct).1 none).ggc.clip
      = (GQtDrawPushClip w rct).1.ggc.clip ∧
    GQtDrawPopClip w none = w := by
  refine ⟨rfl, rfl, rfl, rfl, rfl⟩

/-- C15: when the current clip and the requested rectangle overlap in a region of
positive width and height, the clip after `GQtDrawPushClip` has x the larger of the two
x, y the larger of the two y, right edge the smaller of the two right edges and bottom
edge the smaller of the two bottom edges. -/
theorem GQtDrawPushClip_overlap (w : GWindow) (rct : GRect)
    (hx : max w.ggc.clip.x rct.x < min (w.ggc.clip.x + w.ggc.clip.width) (rct.x + rct.width))
    (hy : max w.ggc.clip.y rct.y < min (w.ggc.clip.y + w.ggc.clip.height) (rct.y + rct.height)) :
    (GQtDrawPushClip w rct).1.ggc.clip.x = max w.ggc.clip.x rct.x ∧
    (GQtDrawPushClip w rct).1.ggc.clip.y = max w.ggc.clip.y rct.y ∧
    (GQtDrawPushClip w rct).1.ggc.clip.x + (GQtDrawPushClip w rct).1.ggc.clip.width
      = min (w.ggc.clip.x + w.ggc.clip.width) (rct.x + rct.width) ∧
    (GQtDrawPushClip w rct).1.ggc.clip.y + (GQtDrawPushClip w rct).1.ggc.clip.height
      = min (w.ggc.clip.y + w.ggc.clip.height) (rct.y + rct.height) := by
  have ex := clampClip_x w.ggc.clip rct
  have ey := clampClip_y w.ggc.clip rct
  have ew := clampClip_width w.ggc.clip rct
  have eh := clampClip_height w.ggc.clip rct
  simp only [GQtDrawPushClip, pushedClip]
  generalize clampClip w.ggc.clip rct = c at ex ey ew eh ⊢
  generalize w.ggc.clip = o at hx hy ex ey ew eh ⊢
  have hneg : ¬ (c.height < 0 ∨ c.width < 0) := by
    split_ifs at ex ey ew eh <;> omega
  rw [if_neg hneg]
  split_ifs at ex ey ew eh <;> omega

/-- C15 at the clip (0, 0, 10, 10) and the rectangle (5, -3, 10, 8): the new clip is
(5, 0, 5, 5). -/
theorem GQtDrawPushClip_overlap_witness :
    (GQtDrawPushClip (windowWithClip ⟨0, 0, 10, 10⟩) ⟨5, -3, 10, 8⟩).1.ggc.clip = ⟨5, 0, 5, 5⟩ ∧
    (GQtDrawPushClip (windowWithClip ⟨0, 0, 10, 10⟩) ⟨5, -3, 10, 8⟩).1.ggc.clip.x
      = max (windowWithClip ⟨0, 0, 10, 10⟩).ggc.clip.x (5 : Int) :=
  ⟨by decide, (GQtDrawPushClip_overlap (windowWithClip ⟨0, 0, 10, 10⟩) ⟨5, -3, 10, 8⟩
    (by decide) (by decide)).1⟩

/-- C16: after `GQtDrawPushClip` the clip has neither a negative width nor a negative
height; whenever the clamping computes a negative width or height the clip is the
rectangle of width and height 1 at (-100, -100); and that rectangle covers no point of
a window area [0, W) x [0, H). -/
theorem GQtDrawPushClip_extent (w : GWindow) (rct : GRect) :
    0 ≤ (GQtDrawPushClip w rct).1.ggc.clip.width ∧
    0 ≤ (GQtDrawPushClip w rct).1.ggc.clip.height ∧
    (((clampClip w.ggc.clip rct).width < 0 ∨ (clampClip w.ggc.clip rct).height < 0) →
      (GQtDrawPushClip w rct).1.ggc.clip = offWindow) ∧
    (∀ W H px py : Int, 0 ≤ px → px < W → 0 ≤ py → py < H → ¬ offWindow.covers px py) := by
  have key : ∀ c : GRect, 0 ≤ (if c.height < 0 ∨ c.width < 0 then offWindow else c).width ∧
      0 ≤ (if c.height < 0 ∨ c.width < 0 then offWindow else c).height := by
    intro c
    split_ifs with h
    · exact ⟨by decide, by decide⟩
    · omega
  refine ⟨(key _).1, (key _).2, ?_, ?_⟩
  · intro h
    have h2 : (clampClip w.ggc.clip rct).height < 0 ∨ (clampClip w.ggc.clip rct).width < 0 :=
      h.symm
    simp only [GQtDrawPushClip, pushedClip, if_pos h2, offWindow]
  · intro W H px py h1 _ h3 _ hc
    simp only [GRect.covers, offWindow] at hc
    omega

/-- C16 at the clip (0, 0, 10, 10) and the rectangle (20, 0, 5, 5): the clamping gives
the width -10 and the clip becomes the rectangle at (-100, -100). -/
theorem GQtDrawPushClip_extent_witness :
    (clampClip (windowWithClip ⟨0, 0, 10, 10⟩).ggc.clip ⟨20, 0, 5, 5⟩).width = -10 ∧
    (GQtDrawPushClip (windowWithClip ⟨0, 0, 10, 10⟩) ⟨20, 0, 5, 5⟩).1.ggc.clip = offWindow :=
  ⟨by decide, (GQtDrawPushClip_extent (windowWithClip ⟨0, 0, 10, 10⟩) ⟨20, 0, 5, 5⟩).2.2.1
    (Or.inl (by decide))⟩

/-! ## Move and resize callbacks -/

/-- C17: `configureEvent` hands no event to the handler when the window is top-level
and the stored position differs from the new geometry while the stored size does not;
in every other case, also when nothing changed, the handler, if there is one, is
called exactly once, with the event built; so for a window with a handler the event is
withheld exactly in the first case.  In the event `moved` says whether the position
changed and `sized` whether the size changed. -/
theorem configureEvent_withholds_pure_move (w : GWindow) (geom : GRect) :
    ((w.is_toplevel = true ∧ (geom.x ≠ w.pos.x ∨ geom.y ≠ w.pos.y) ∧
        ¬ (geom.width ≠ w.pos.width ∨ geom.height ≠ w.pos.height)) →
      (configureEvent w geom).calls = []) ∧
    (¬ (w.is_toplevel = true ∧ (geom.x ≠ w.pos.x ∨ geom.y ≠ w.pos.y) ∧
        ¬ (geom.width ≠ w.pos.width ∨ geom.height ≠ w.pos.height)) →
      (configureEvent w geom).calls = if w.eh = true then [(configureEvent w geom).event] else []) ∧
    (w.eh = true →
      ((configureEvent w geom).calls = [] ↔
        (w.is_toplevel = true ∧ (geom.x ≠ w.pos.x ∨ geom.y ≠ w.pos.y) ∧
          ¬ (geom.width ≠ w.pos.width ∨ geom.height ≠ w.pos.height)))) ∧
    ((configureEvent w geom).event.moved = true ↔ (geom.x ≠ w.pos.x ∨ geom.y ≠ w.pos.y)) ∧
    ((configureEvent w geom).event.sized = true ↔
      (geom.width ≠ w.pos.width ∨ geom.height ≠ w.pos.height)) := by
  have hm : (decide (geom.x - w.pos.x ≠ 0 ∨ geom.y - w.pos.y ≠ 0) = true) ↔
      (geom.x ≠ w.pos.x ∨ geom.y ≠ w.pos.y) := by
    rw [decide_eq_true_iff]; omega
  have hs : (decide (geom.width - w.pos.width ≠ 0 ∨ geom.height - w.pos.height ≠ 0) = true) ↔
      (geom.width ≠ w.pos.width ∨ geom.height ≠ w.pos.height) := by
    rw [decide_eq_true_iff]; omega
  have hev : (configureEvent w geom).event =
      { size := geom, dx := geom.x - w.pos.x, dy := geom.y - w.pos.y,
        dwidth := geom.width - w.pos.width, dheight := geom.height - w.pos.height,
        moved := decide (geom.x - w.pos.x ≠ 0 ∨ geom.y - w.pos.y ≠ 0),
        sized := decide (geom.width - w.pos.width ≠ 0 ∨ geom.height - w.pos.height ≠ 0) } := by
    unfold configureEvent
    dsimp only
    split_ifs <;> rfl
  have hcalls : (configureEvent w geom).calls =
      if (w.is_toplevel
          && !decide (geom.width - w.pos.width ≠ 0 ∨ geom.height - w.pos.height ≠ 0)
          && decide (geom.x - w.pos.x ≠ 0 ∨ geom.y - w.pos.y ≠ 0)) = true then []
      else if w.eh = true then [(configureEvent w geom).event] else [] := by
    rw [hev]
    unfold configureEvent _GQtDraw_CallEHChecked
    dsimp only
    split_ifs <;> rfl
  have hcond : ((w.is_toplevel
          && !decide (geom.width - w.pos.width ≠ 0 ∨ geom.height - w.pos.height ≠ 0)
          && decide (geom.x - w.pos.x ≠ 0 ∨ geom.y - w.pos.y ≠ 0)) = true) ↔
      (w.is_toplevel = true ∧ (geom.x ≠ w.pos.x ∨ geom.y ≠ w.pos.y) ∧
        ¬ (geom.width ≠ w.pos.width ∨ geom.height ≠ w.pos.height)) := by
    rw [Bool.and_eq_true, Bool.and_eq_true, Bool.not_eq_true', ← Bool.not_eq_true, hm, hs]
    tauto
  refine ⟨?_, ?_, ?_, ?_, ?_⟩
  · intro h
    rw [hcalls, if_pos (hcond.mpr h)]
  · intro h
    rw [hcalls, if_neg (fun c => h (hcond.mp c))]
  · intro he
    rw [hcalls]
    constructor
    · intro h
      by_contra hn
      rw [if_neg (fun c => hn (hcond.mp c)), if_pos he] at h
      exact absurd h (by simp)
    · intro h
      rw [if_pos (hcond.mpr h)]
  · rw [hev]; exact hm
  · rw [hev]; exact hs

/-- C17 at a top-level window with a handler at (0, 0, 640, 480): a move to (5, 0)
hands nothing to the handler, a change of the width hands it one event. -/
theorem configureEvent_withholds_pure_move_witness :
    (configureEvent (topWindowAt ⟨0, 0, 640, 480⟩) ⟨5, 0, 640, 480⟩).calls = [] ∧
    (configureEvent (topWindowAt ⟨0, 0, 640, 480⟩) ⟨5, 0, 700, 480⟩).calls
      = [{ size := ⟨5, 0, 700, 480⟩, dx := 5, dy := 0, dwidth := 60, dheight := 0,
           moved := true, sized := true }] :=
  ⟨(configureEvent_withholds_pure_move (topWindowAt ⟨0, 0, 640, 480⟩) ⟨5, 0, 640, 480⟩).1
    (by decide), by decide⟩

/-- C18: the event of `configureEvent` has the new geometry as its size and the new
geometry minus the stored position as dx, dy, dwidth and dheight; afterwards the stored
position is the new geometry, whether or not the event was handed to the handler; so
a repeated callback with the same geometry builds an event with moved and sized false
and every difference zero. -/
theorem configureEvent_stores_geometry (w : GWindow) (geom : GRect) :
    (configureEvent w geom).event.size = geom ∧
    (configureEvent w geom).event.dx = geom.x - w.pos.x ∧
    (configureEvent w geom).event.dy = geom.y - w.pos.y ∧
    (configureEvent w geom).event.dwidth = geom.width - w.pos.width ∧
    (configureEvent w geom).event.dheight = geom.height - w.pos.height ∧
    (configureEvent w geom).window.pos = geom ∧
    (configureEvent (configureEvent w geom).window geom).event
      = { size := geom, dx := 0, dy := 0, dwidth := 0, dheight := 0,
          moved := false, sized := false } := by
  have hev : ∀ (v : GWindow), (configureEvent v geom).event =
      { size := geom, dx := geom.x - v.pos.x, dy := geom.y - v.pos.y,
        dwidth := geom.width - v.pos.width, dheight := geom.height - v.pos.height,
        moved := decide (geom.x - v.pos.x ≠ 0 ∨ geom.y - v.pos.y ≠ 0),
        sized := decide (geom.width - v.pos.width ≠ 0 ∨ geom.height - v.pos.height ≠ 0) } := by
    intro v
    unfold configureEvent
    dsimp only
    split_ifs <;> rfl
  have hpos : (configureEvent w geom).window.pos = geom := by
    unfold configureEvent
    dsimp only
    split_ifs <;> rfl
  refine ⟨?_, ?_, ?_, ?_, ?_, hpos, ?_⟩
  · rw [hev]
  · rw [hev]
  · rw [hev]
  · rw [hev]
  · rw [hev]
  · rw [hev, hpos]
    simp

/-- C18 at a top-level window at (0, 0, 640, 480) moved to (5, 0): the event is
withheld and the stored position is the new geometry. -/
theorem configureEvent_stores_geometry_witness :
    (configureEvent (topWindowAt ⟨0, 0, 640, 480⟩) ⟨5, 0, 640, 480⟩).calls = [] ∧
    (configureEvent (topWindowAt ⟨0, 0, 640, 480⟩) ⟨5, 0, 640, 480⟩).window.pos
      = ⟨5, 0, 640, 480⟩ :=
  ⟨by decide, (configureEvent_stores_geometry (topWindowAt ⟨0, 0, 640, 480⟩)
    ⟨5, 0, 640, 480⟩).2.2.2.2.2.1⟩

/-! ## Cursors -/

/-- C19: `GQtDrawSetCursor` leaves the window as it is, current cursor and widget cursor
included, for `ct_invisible` and for a value from `ct_user` on whose index
`value - ct_user` is not below the number of custom cursors of the display; for every
other value `GQtDrawGetCursor` afterwards returns that value.  The widget cursor it
installs is never the blank cursor, and a custom cursor it installs has an index below
the number of custom cursors. -/
theorem GQtDrawSetCursor_current (K : cursor_types) (ncustom : Nat) (w : GWindow)
    (gcursor : Int) :
    ((gcursor = K.ct_invisible ∨
        (gcursor ≥ K.ct_user ∧ ¬ (gcursor - K.ct_user < (ncustom : Int)))) →
      GQtDrawSetCursor K ncustom w gcursor = w) ∧
    (¬ (gcursor = K.ct_invisible ∨
        (gcursor ≥ K.ct_user ∧ ¬ (gcursor - K.ct_user < (ncustom : Int)))) →
      GQtDrawGetCursor (GQtDrawSetCursor K ncustom w gcursor) = gcursor) ∧
    ((GQtDrawSetCursor K ncustom w gcursor).cursor = w.cursor ∨
      (GQtDrawSetCursor K ncustom w gcursor).cursor ≠ .shape .BlankCursor) ∧
    (∀ i : Nat, (GQtDrawSetCursor K ncustom w gcursor).cursor = .custom i →
      w.cursor = .custom i ∨ i < ncustom) := by
  have hshape : cursorShape K gcursor ≠ .BlankCursor := by
    unfold cursorShape
    split_ifs <;> decide
  unfold GQtDrawGetCursor
  by_cases h1 : gcursor = K.ct_invisible
  · have e : GQtDrawSetCursor K ncustom w gcursor = w := by
      unfold GQtDrawSetCursor
      rw [if_pos h1]
    rw [e]
    exact ⟨fun _ => rfl, fun h => absurd (Or.inl h1) h, Or.inl rfl, fun i h => Or.inl h⟩
  · by_cases h2 : gcursor ≥ K.ct_user
    · by_cases h3 : (gcursor - K.ct_user).toNat < ncustom
      · have h3' : gcursor - K.ct_user < (ncustom : Int) := by omega
        have e : GQtDrawSetCursor K ncustom w gcursor =
            { w with cursor := .custom (gcursor - K.ct_user).toNat,
                     current_cursor := gcursor - K.ct_user + K.ct_user } := by
          unfold GQtDrawSetCursor
          dsimp only
          rw [if_neg h1, if_pos h2, if_pos h3]
        rw [e]
        refine ⟨fun h => ?_, fun _ => ?_, Or.inr ?_, fun i h => ?_⟩
        · rcases h with h | h
          · exact absurd h h1
          · exact absurd h3' h.2
        · show gcursor - K.ct_user + K.ct_user = gcursor
          omega
        · intro h
          cases h
        · right
          have h' : WidgetCursor.custom (gcursor - K.ct_user).toNat = WidgetCursor.custom i := h
          rw [WidgetCursor.custom.injEq] at h'
          omega
      · have h3' : ¬ (gcursor - K.ct_user < (ncustom : Int)) := by omega
        have e : GQtDrawSetCursor K ncustom w gcursor = w := by
          unfold GQtDrawSetCursor
          dsimp only
          rw [if_neg h1, if_pos h2, if_neg h3]
        rw [e]
        exact ⟨fun _ => rfl, fun h => absurd (Or.inr ⟨h2, h3'⟩) h, Or.inl rfl,
          fun i h => Or.inl h⟩
    · have e : GQtDrawSetCursor K ncustom w gcursor =
          { w with cursor := .shape (cursorShape K gcursor), current_cursor := gcursor } := by
        unfold GQtDrawSetCursor
        dsimp only
        rw [if_neg h1, if_neg h2]
      rw [e]
      refine ⟨fun h => ?_, fun _ => rfl, Or.inr ?_, fun i h => ?_⟩
      · rcases h with h | h
        · exact absurd h h1
        · exact absurd h.1 h2
      · intro h
        have h' : WidgetCursor.shape (cursorShape K gcursor) = WidgetCursor.shape .BlankCursor := h
        rw [WidgetCursor.shape.injEq] at h'
        exact hshape h'
      · cases h

/-- C19 at sample values of the constants, on a display with 2 custom cursors:
`ct_invisible` and the value `ct_user + 2` leave the window as it is, the value
`ct_user + 1` becomes the current cursor. -/
theorem GQtDrawSetCursor_current_witness :
    GQtDrawSetCursor sampleCursors 2 (topWindowAt ⟨0, 0, 640, 480⟩) 10
      = topWindowAt ⟨0, 0, 640, 480⟩ ∧
    GQtDrawSetCursor sampleCursors 2 (topWindowAt ⟨0, 0, 640, 480⟩) 13
      = topWindowAt ⟨0, 0, 640, 480⟩ ∧
    GQtDrawGetCursor (GQtDrawSetCursor sampleCursors 2 (topWindowAt ⟨0, 0, 640, 480⟩) 12) = 12 :=
  ⟨(GQtDrawSetCursor_current sampleCursors 2 (topWindowAt ⟨0, 0, 640, 480⟩) 10).1
      (Or.inl (by decide)),
    (GQtDrawSetCursor_current sampleCursors 2 (topWindowAt ⟨0, 0, 640, 480⟩) 13).1
      (Or.inr (by decide)),
    (GQtDrawSetCursor_current sampleCursors 2 (topWindowAt ⟨0, 0, 640, 480⟩) 12).2.1
      (by decide)⟩

/-! ## Window creation -/

theorem GQtDrawSetCursor_is_toplevel (K : cursor_types) (ncustom : Nat) (w : GWindow)
    (gcursor : Int) : (GQtDrawSetCursor K ncustom w gcursor).is_toplevel = w.is_toplevel := by
  unfold GQtDrawSetCursor
  dsimp only
  split_ifs <;> rfl

theorem CreateWindow_is_toplevel (K : cursor_types) (ncustom : Nat) (w : Option Nat)
    (pos : GRect) (eh : Bool) (wattrs : Option GWindowAttrs) :
    (_GQtDraw_CreateWindow K ncustom w pos eh wattrs).is_toplevel
      = decide (windowFlags w (wattrs.getD GWINDOWATTRS_EMPTY) &&& Qt.Window ≠ 0) := by
  unfold _GQtDraw_CreateWindow
  dsimp only
  split_ifs
  · rw [GQtDrawSetCursor_is_toplevel]
  · rfl

theorem windowFlags_window (w : Option Nat) (a : GWindowAttrs) :
    windowFlags w a &&& Qt.Window ≠ 0 ↔
      (w = none ∨ ((.wam_nodecor ∈ a.mask) ∧ a.nodecoration = true) ∨
        ((.wam_isdlg ∈ a.mask) ∧ a.is_dlg = true)) := by
  unfold windowFlags
  dsimp only
  by_cases hw : w = none <;> by_cases h1 : ((.wam_nodecor ∈ a.mask) ∧ a.nodecoration = true) <;>
    by_cases h2 : ((.wam_isdlg ∈ a.mask) ∧ a.is_dlg = true) <;>
    simp only [hw, h1, h2, if_true, if_false, or_true, true_or, or_false, false_or,
      iff_true, iff_false, not_not, ne_eq, not_false_eq_true, and_self] <;> decide

/-- C20, counterexample: a window created by `GQtDrawCreateSubWindow`, so with a
parent, is marked top-level when it is asked for without decoration, and also when it
is asked for as a dialogue: `Qt::Popup` and `Qt::Dialog` contain the bit `Qt::Window`. -/
theorem GQtDrawCreateSubWindow_toplevel :
    (GQtDrawCreateSubWindow sampleCursors 0 7 ⟨0, 0, 100, 50⟩ true
      (some nodecorAttrs)).is_toplevel = true ∧
    (GQtDrawCreateSubWindow sampleCursors 0 7 ⟨0, 0, 100, 50⟩ true
      (some nodecorAttrs)).parent = some 7 ∧
    (GQtDrawCreateSubWindow sampleCursors 0 7 ⟨0, 0, 100, 50⟩ true
      (some dlgAttrs)).is_toplevel = true := by
  decide

/-- C20, amended: a window created by `_GQtDraw_CreateWindow` is marked top-level
exactly when it is created without a parent, or asked for without decoration
(`wam_nodecor` with `nodecoration`), or asked for as a dialogue (`wam_isdlg` with
`is_dlg`).  So every window from `GQtDrawCreateTopWindow` is top-level, whatever the
attributes, and a window from `GQtDrawCreateSubWindow` is top-level exactly when one
of the two attributes is asked for: with null or empty attributes it is not. -/
theorem CreateWindow_toplevel_iff (K : cursor_types) (ncustom : Nat) (pos : GRect) (eh : Bool) :
    (∀ (w : Option Nat) (a : GWindowAttrs),
      (_GQtDraw_CreateWindow K ncustom w pos eh (some a)).is_toplevel = true ↔
        (w = none ∨ ((.wam_nodecor ∈ a.mask) ∧ a.nodecoration = true) ∨
          ((.wam_isdlg ∈ a.mask) ∧ a.is_dlg = true))) ∧
    (∀ w : Option Nat,
      (_GQtDraw_CreateWindow K ncustom w pos eh none).is_toplevel = true ↔ w = none) ∧
    (∀ gattrs : Option GWindowAttrs,
      (GQtDrawCreateTopWindow K ncustom pos eh gattrs).is_toplevel = true) ∧
    (∀ (p : Nat) (a : GWindowAttrs),
      (GQtDrawCreateSubWindow K ncustom p pos eh (some a)).is_toplevel = true ↔
        (((.wam_nodecor ∈ a.mask) ∧ a.nodecoration = true) ∨
          ((.wam_isdlg ∈ a.mask) ∧ a.is_dlg = true))) ∧
    (∀ p : Nat, (GQtDrawCreateSubWindow K ncustom p pos eh none).is_toplevel = false) := by
  refine ⟨?_, ?_, ?_, ?_, ?_⟩
  · intro w a
    rw [CreateWindow_is_toplevel, decide_eq_true_iff]
    exact windowFlags_window w a
  · intro w
    rw [CreateWindow_is_toplevel, decide_eq_true_iff]
    refine (windowFlags_window w _).trans ?_
    simp [GWINDOWATTRS_EMPTY]
  · intro gattrs
    unfold GQtDrawCreateTopWindow
    rw [CreateWindow_is_toplevel, decide_eq_true_iff]
    exact (windowFlags_window none _).mpr (Or.inl rfl)
  · intro p a
    unfold GQtDrawCreateSubWindow
    rw [CreateWindow_is_toplevel, decide_eq_true_iff]
    refine (windowFlags_window (some p) a).trans ?_
    simp
  · intro p
    unfold GQtDrawCreateSubWindow
    rw [CreateWindow_is_toplevel]
    rw [decide_eq_false_iff_not]
    intro h
    have := (windowFlags_window (some p) _).mp h
    simp [GWINDOWATTRS_EMPTY] at this

/-! ## Expose requests -/

theorem exposeRect_corners (rect : GRect) :
    exposeRect rect
      = { x1 := rect.x, y1 := rect.y, x2 := rect.x + rect.width - 1,
          y2 := rect.y + rect.height - 1 } := rfl

theorem exposeLeft_corners (c : QRect) :
    (exposeLeft c).x1 = max c.x1 0 ∧ (exposeLeft c).x2 = c.x2 + min c.x1 0 ∧
      (exposeLeft c).y1 = c.y1 ∧ (exposeLeft c).y2 = c.y2 := by
  unfold exposeLeft
  simp only [QRect.x, QRect.width, QRect.setX, QRect.setWidth]
  split_ifs <;> refine ⟨?_, ?_, ?_, ?_⟩ <;> first | rfl | omega | (simp only; omega)

theorem exposeTop_corners (c : QRect) :
    (exposeTop c).x1 = c.x1 ∧ (exposeTop c).x2 = c.x2 ∧
      (exposeTop c).y1 = max c.y1 0 ∧ (exposeTop c).y2 = c.y2 + min c.y1 0 := by
  unfold exposeTop
  simp only [QRect.y, QRect.height, QRect.setY, QRect.setHeight]
  split_ifs <;> refine ⟨?_, ?_, ?_, ?_⟩ <;> first | rfl | omega | (simp only; omega)

theorem exposeRight_corners (pos : GRect) (c : QRect) :
    (exposeRight pos c).x1 = c.x1 ∧ (exposeRight pos c).x2 = min c.x2 (pos.width - 1) ∧
      (exposeRight pos c).y1 = c.y1 ∧ (exposeRight pos c).y2 = c.y2 := by
  unfold exposeRight
  simp only [QRect.x, QRect.width, QRect.setWidth]
  split_ifs <;> refine ⟨?_, ?_, ?_, ?_⟩ <;> first | rfl | omega | (simp only; omega)

theorem exposeBottom_corners (pos : GRect) (c : QRect) :
    (exposeBottom pos c).x1 = c.x1 ∧ (exposeBottom pos c).x2 = c.x2 ∧
      (exposeBottom pos c).y1 = c.y1 ∧
      (exposeBottom pos c).y2 = min c.y2 (pos.height - 1) := by
  unfold exposeBottom
  simp only [QRect.y, QRect.height, QRect.setHeight]
  split_ifs <;> refine ⟨?_, ?_, ?_, ?_⟩ <;> first | rfl | omega | (simp only; omega)

theorem exposeClip_corners (pos : GRect) (c : QRect) :
    (exposeBottom pos (exposeRight pos (exposeTop (exposeLeft c)))).x1 = max c.x1 0 ∧
    (exposeBottom pos (exposeRight pos (exposeTop (exposeLeft c)))).x2
      = min (c.x2 + min c.x1 0) (pos.width - 1) ∧
    (exposeBottom pos (exposeRight pos (exposeTop (exposeLeft c)))).y1 = max c.y1 0 ∧
    (exposeBottom pos (exposeRight pos (exposeTop (exposeLeft c)))).y2
      = min (c.y2 + min c.y1 0) (pos.height - 1) := by
  obtain ⟨l1, l2, l3, l4⟩ := exposeLeft_corners c
  obtain ⟨t1, t2, t3, t4⟩ := exposeTop_corners (exposeLeft c)
  obtain ⟨r1, r2, r3, r4⟩ := exposeRight_corners pos (exposeTop (exposeLeft c))
  obtain ⟨b1, b2, b3, b4⟩ := exposeBottom_corners pos (exposeRight pos (exposeTop (exposeLeft c)))
  refine ⟨?_, ?_, ?_, ?_⟩
  · rw [b1, r1, t1, l1]
  · rw [b2, r2, t2, l2]
  · rw [b3, r3, t3, l3]
  · rw [b4, r4, t4, l4, l3]

theorem exposed_span (lo hi a ext w p : Int) (h1 : lo = max a 0)
    (h2 : hi = min (a + ext - 1 + min a 0) (w - 1)) :
    (lo ≤ p ∧ p ≤ hi) ↔ (max a 0 ≤ p ∧ p < min (a + ext + min a 0) w) := by
  subst h1 h2
  omega

/-- What `GQtDrawRequestExpose` asks to repaint for a visible window that is not dying
and a rectangle: the points of the window area from `max rect.x 0` up to, and without,
`rect.x + rect.width + min rect.x 0`, and the same vertically.  A rectangle that starts
left of the window by `d` asks for a region that ends `d` before the right edge of the
rectangle. -/
theorem GQtDrawRequestExpose_exposed (w : GWindow) (parents : List GWindow) (rect : GRect)
    (hv : w.is_visible = true) (hd : _GQtDraw_WindowOrParentsDying (w :: parents) = false)
    (px py : Int) :
    exposed w.pos (GQtDrawRequestExpose w parents (some rect)) px py ↔
      (max rect.x 0 ≤ px ∧ px < min (rect.x + rect.width + min rect.x 0) w.pos.width ∧
        max rect.y 0 ≤ py ∧ py < min (rect.y + rect.height + min rect.y 0) w.pos.height) := by
  have hgo : ¬ ((!w.is_visible || _GQtDraw_WindowOrParentsDying (w :: parents)) = true) := by
    rw [hv, hd]; decide
  unfold GQtDrawRequestExpose
  rw [if_neg hgo]
  simp only
  obtain ⟨k1, k2, k3, k4⟩ := exposeClip_corners w.pos (exposeRect rect)
  have hX := exposed_span _ _ rect.x rect.width w.pos.width px k1 k2
  have hY := exposed_span _ _ rect.y rect.height w.pos.height py k3 k4
  clear k1 k2 k3 k4
  generalize exposeBottom w.pos (exposeRight w.pos (exposeTop (exposeLeft (exposeRect rect))))
    = c at hX hY ⊢
  split_ifs with hout he
  · simp only [QRect.height, QRect.width] at he
    simp only [exposed]
    constructor
    · intro h
      exact h.elim
    · intro h
      have h1 := hX.mpr ⟨h.1, h.2.1⟩
      have h2 := hY.mpr ⟨h.2.2.1, h.2.2.2⟩
      clear hX hY h
      omega
  · simp only [exposed, QRect.covers]
    constructor
    · intro h
      have h1 := hX.mp ⟨h.1, h.2.1⟩
      have h2 := hY.mp ⟨h.2.2.1, h.2.2.2⟩
      exact ⟨h1.1, h1.2, h2.1, h2.2⟩
    · intro h
      have h1 := hX.mpr ⟨h.1, h.2.1⟩
      have h2 := hY.mpr ⟨h.2.2.1, h.2.2.2⟩
      exact ⟨h1.1, h1.2, h2.1, h2.2⟩
  · have e1 : (exposeRect rect).x1 = rect.x := rfl
    have e2 : (exposeRect rect).x2 = rect.x + rect.width - 1 := rfl
    have e3 : (exposeRect rect).y1 = rect.y := rfl
    have e4 : (exposeRect rect).y2 = rect.y + rect.height - 1 := rfl
    clear hX hY
    generalize exposeRect rect = c0 at e1 e2 e3 e4 ⊢
    simp only [exposed, QRect.covers]
    omega

/-- For a visible window that is not dying and a rectangle that starts neither left of
nor above the window, `GQtDrawRequestExpose` asks to repaint exactly the points that
the rectangle and the window area (0, 0, pos.width, pos.height) share, and makes no
request only when they share none. -/
theorem GQtDrawRequestExpose_inside (w : GWindow) (parents : List GWindow) (rect : GRect)
    (hv : w.is_visible = true) (hd : _GQtDraw_WindowOrParentsDying (w :: parents) = false)
    (hx : 0 ≤ rect.x) (hy : 0 ≤ rect.y) (px py : Int) :
    (exposed w.pos (GQtDrawRequestExpose w parents (some rect)) px py ↔
      (rect.covers px py ∧ GRect.covers ⟨0, 0, w.pos.width, w.pos.height⟩ px py)) ∧
    (GQtDrawRequestExpose w parents (some rect) = none →
      ¬ (rect.covers px py ∧ GRect.covers ⟨0, 0, w.pos.width, w.pos.height⟩ px py)) := by
  have h := GQtDrawRequestExpose_exposed w parents rect hv hd px py
  have h1 : exposed w.pos (GQtDrawRequestExpose w parents (some rect)) px py ↔
      (rect.covers px py ∧ GRect.covers ⟨0, 0, w.pos.width, w.pos.height⟩ px py) := by
    rw [h]
    simp only [GRect.covers]
    omega
  refine ⟨h1, fun hn hc => ?_⟩
  have h2 := h1.mpr hc
  rw [hn] at h2
  exact h2

/-- At the window (0, 0, 100, 100) and the rectangle (20, 90, 30, 30), the request is
for the rectangle with corners (20, 90) and (49, 99). -/
theorem GQtDrawRequestExpose_inside_witness :
    GQtDrawRequestExpose (topWindowAt ⟨0, 0, 100, 100⟩) [] (some ⟨20, 90, 30, 30⟩)
      = some (.region ⟨20, 90, 49, 99⟩) ∧
    exposed (topWindowAt ⟨0, 0, 100, 100⟩).pos
      (GQtDrawRequestExpose (topWindowAt ⟨0, 0, 100, 100⟩) [] (some ⟨20, 90, 30, 30⟩)) 49 99 :=
  ⟨by decide, ((GQtDrawRequestExpose_inside (topWindowAt ⟨0, 0, 100, 100⟩) []
    ⟨20, 90, 30, 30⟩ (by decide) (by decide) (by decide) (by decide) 49 99).1).mpr
      (by decide)⟩

/-- C21, where the code departs from it: in the visible window (0, 0, 100, 100), not
dying, the rectangle (-10, 0, 30, 10) shares with the window area the points with
0 ≤ x < 20 and 0 ≤ y < 10, but `GQtDrawRequestExpose` asks to repaint the rectangle
with corners (0, 0) and (9, 9) only, so not the shared point (15, 5): `setWidth`
shortens the rectangle by 10 and `setX(0)`, which keeps the right edge, by 10 again.
For the rectangle (-10, 0, 15, 10), which shares the point (2, 5) with the window
area, it makes no request. -/
theorem GQtDrawRequestExpose_left_of_window :
    (topWindowAt ⟨0, 0, 100, 100⟩).is_visible = true ∧
    _GQtDraw_WindowOrParentsDying [topWindowAt ⟨0, 0, 100, 100⟩] = false ∧
    GQtDrawRequestExpose (topWindowAt ⟨0, 0, 100, 100⟩) [] (some ⟨-10, 0, 30, 10⟩)
      = some (.region ⟨0, 0, 9, 9⟩) ∧
    (GRect.covers ⟨-10, 0, 30, 10⟩ 15 5 ∧ GRect.covers ⟨0, 0, 100, 100⟩ 15 5) ∧
    ¬ exposed (topWindowAt ⟨0, 0, 100, 100⟩).pos
      (GQtDrawRequestExpose (topWindowAt ⟨0, 0, 100, 100⟩) [] (some ⟨-10, 0, 30, 10⟩)) 15 5 ∧
    GQtDrawRequestExpose (topWindowAt ⟨0, 0, 100, 100⟩) [] (some ⟨-10, 0, 15, 10⟩) = none ∧
    (GRect.covers ⟨-10, 0, 15, 10⟩ 2 5 ∧ GRect.covers ⟨0, 0, 100, 100⟩ 2 5) := by
  decide

end GQtDraw
